import Mathlib

/-!
Verification of the trip state-management and serialization layer of the
RoadTripPlanner repository.

The embedding works over `Str := List Char`: a JavaScript string is modelled as
its sequence of Unicode scalar values.  JavaScript numbers are modelled as
integers (`Int`); every numeric value this layer stores, hashes or compares is
integral, and none of the verified properties depends on fractional formatting.
Browser storage (`sessionStorage` / `localStorage`) is modelled as an
association list from key strings to value strings, together with a list
`broken` of keys whose writes throw (the environmental quota-exceeded failure);
a `setItem` on such a key returns `none`, which the translated functions turn
into the `false` result of the corresponding `catch` block, exactly as in the
source.  Runtime values produced by `JSON.parse` are untyped in the source
(TypeScript erases the annotations), so the storage layer passes `Json` values
around; the TypeScript interfaces (`TripData`, `TripPlace`, `RouteData`, …) are
embedded as structures with a `…ToJson` injection used to state the claims.
-/

namespace RoadTrip

/-- A JavaScript string: its list of Unicode scalar values. -/
abbrev Str := List Char

/-- Scalar-value list of a Lean string literal (used to write concrete keys). -/
def chars (s : String) : Str := s.data

/-! ## JSON values

The runtime values handled by `JSON.stringify` / `JSON.parse`: null, booleans,
numbers (integral, see the header note), strings, arrays and objects.  Object
fields are kept in insertion order, as JavaScript does for string keys. -/

inductive Json where
  | jnull
  | jbool (b : Bool)
  | jnum (n : Int)
  | jstr (s : Str)
  | jarr (elems : List Json)
  | jobj (fields : List (Str × Json))

/-- Property read `v[k]`: `some` value, or `none` for `undefined` (also for
reads on non-objects; in JavaScript a read on `null`/`undefined` throws, but
every such throw in this module is caught by the surrounding `try`/`catch`
whose result the affected theorems state through their hypotheses). -/
def jsonGet (j : Json) (k : Str) : Option Json :=
  match j with
  | .jobj fields => fieldLookup k fields
  | _ => none
where
  fieldLookup (k : Str) : List (Str × Json) → Option Json
    | [] => none
    | (k', v) :: rest => if k' = k then some v else fieldLookup k rest

/-- The object spread-and-set `{...j, k: v}` of the source: an existing key `k`
is overwritten in place, a new one is appended; spreading a non-object
contributes no fields.  (Spreading a string would contribute its index
properties; no reachable call does that.) -/
def jsonSetField (j : Json) (k : Str) (v : Json) : Json :=
  match j with
  | .jobj fields => .jobj (setFields fields)
  | _ => .jobj [(k, v)]
where
  setFields : List (Str × Json) → List (Str × Json)
    | [] => [(k, v)]
    | (k', v') :: rest => if k' = k then (k, v) :: rest else (k', v') :: setFields rest

/-- JavaScript falsiness of a JSON value: `null`, `false`, `0` and `""`. -/
def jsFalsy : Json → Bool
  | .jnull => true
  | .jbool b => !b
  | .jnum n => n = 0
  | .jstr s => s.isEmpty
  | _ => false

/-- Strict equality `v === s` between an arbitrary (possibly absent) value and
a string: true exactly for the equal string. -/
def jsEqStr (v : Option Json) (s : Str) : Bool :=
  match v with
  | some (.jstr t) => t = s
  | _ => false

/-! ## Decimal digits

`natDecimal` produces the decimal digit characters of a natural number, most
significant first, as JavaScript's number-to-string conversion does for the
integral values appearing here. -/

/-- Digit worker, structurally recursive on a fuel counter so that it reduces
inside the kernel; `natDecimal` supplies enough fuel for every input. -/
def natDecimalAux (fuel n : Nat) (acc : List Char) : List Char :=
  match fuel with
  | 0 => acc
  | fuel + 1 =>
      if n < 10 then Char.ofNat (48 + n) :: acc
      else natDecimalAux fuel (n / 10) (Char.ofNat (48 + n % 10) :: acc)

/-- Decimal digits of `n`, most significant first. -/
def natDecimal (n : Nat) : List Char := natDecimalAux (n + 1) n []

/-- Decimal character form of an integer: a minus sign for negatives, then the
digits of the absolute value. -/
def intDecimal (n : Int) : List Char :=
  if n < 0 then '-' :: natDecimal n.natAbs else natDecimal n.natAbs

/-! ## The printer (`JSON.stringify`)

Output matches `JSON.stringify` with no spacing argument: no whitespace,
fields in insertion order, strings escaped exactly as V8 does (`"`→`\"`,
`\`→`\\`, backspace/tab/newline/formfeed/return→`\b\t\n\f\r`, every other
control character→`\u00XX` with lowercase hex, everything else verbatim). -/

/-- Lowercase hex digit for `n < 16`. -/
def hexChar (n : Nat) : Char :=
  if n < 10 then Char.ofNat (48 + n) else Char.ofNat (87 + n)

/-- The escape of one string character in `JSON.stringify` output. -/
def jEscapeChar (c : Char) : List Char :=
  if c = '"' then ['\\', '"']
  else if c = '\\' then ['\\', '\\']
  else if c = Char.ofNat 8 then ['\\', 'b']
  else if c = '\t' then ['\\', 't']
  else if c = '\n' then ['\\', 'n']
  else if c = Char.ofNat 12 then ['\\', 'f']
  else if c = Char.ofNat 13 then ['\\', 'r']
  else if c.toNat < 32 then
    ['\\', 'u', '0', '0', hexChar (c.toNat / 16), hexChar (c.toNat % 16)]
  else [c]

/-- A string literal's characters: quote, escaped body, quote. -/
def jQuote (s : Str) : List Char :=
  '"' :: (s.flatMap jEscapeChar ++ ['"'])

mutual
/-- `JSON.stringify` on a runtime value. -/
def jPrint : Json → List Char
  | .jnull => ['n', 'u', 'l', 'l']
  | .jbool true => ['t', 'r', 'u', 'e']
  | .jbool false => ['f', 'a', 'l', 's', 'e']
  | .jnum n => intDecimal n
  | .jstr s => jQuote s
  | .jarr es => '[' :: (jPrintElems es ++ [']'])
  | .jobj fs => '{' :: (jPrintFields fs ++ ['}'])
/-- Comma-separated rendering of array elements. -/
def jPrintElems : List Json → List Char
  | [] => []
  | e :: es => jPrint e ++ jPrintElemsTail es
/-- The `,`-prefixed continuation of an element list. -/
def jPrintElemsTail : List Json → List Char
  | [] => []
  | e :: es => ',' :: (jPrint e ++ jPrintElemsTail es)
/-- Comma-separated rendering of `key:value` object fields. -/
def jPrintFields : List (Str × Json) → List Char
  | [] => []
  | (k, v) :: fs => jQuote k ++ ':' :: (jPrint v ++ jPrintFieldsTail fs)
/-- The `,`-prefixed continuation of a field list. -/
def jPrintFieldsTail : List (Str × Json) → List Char
  | [] => []
  | (k, v) :: fs => ',' :: (jQuote k ++ ':' :: (jPrint v ++ jPrintFieldsTail fs))
end

/-! ## The parser (`JSON.parse`)

A total recursive-descent parser over the character list.  Recursion is
structural on a fuel counter, instantiated with one more than the input length,
which bounds any chain of nested openings.  The grammar is the one the printer
above emits — in particular numbers are the integer subgrammar (optional minus
sign, digit run), matching the integral number model of this embedding; every
failure is `none`, the embedding of a caught `SyntaxError`. -/

/-- JSON insignificant whitespace. -/
def isJWs (c : Char) : Bool :=
  c = ' ' || c = '\t' || c = '\n' || c = Char.ofNat 13

/-- Drop leading insignificant whitespace. -/
def jSkipWs : List Char → List Char
  | c :: rest => if isJWs c then jSkipWs rest else c :: rest
  | [] => []

/-- Decimal digit test. -/
def isDigitCh (c : Char) : Bool := 48 ≤ c.toNat && c.toNat ≤ 57

/-- Split off the leading run of decimal digits. -/
def grabDigits : List Char → List Char × List Char
  | c :: rest =>
      if isDigitCh c then
        let (ds, r) := grabDigits rest
        (c :: ds, r)
      else ([], c :: rest)
  | [] => ([], [])

/-- Numeric value of a digit run. -/
def digitsVal (ds : List Char) : Nat :=
  ds.foldl (fun acc c => acc * 10 + (c.toNat - 48)) 0

/-- Value of one hex digit, either case. -/
def hexNib (c : Char) : Option Nat :=
  if 48 ≤ c.toNat && c.toNat ≤ 57 then some (c.toNat - 48)
  else if 97 ≤ c.toNat && c.toNat ≤ 102 then some (c.toNat - 87)
  else if 65 ≤ c.toNat && c.toNat ≤ 70 then some (c.toNat - 55)
  else none

/-- Value of a four-hex-digit escape payload. -/
def hexQuad (a b c d : Char) : Option Nat := do
  let va ← hexNib a
  let vb ← hexNib b
  let vc ← hexNib c
  let vd ← hexNib d
  pure (((va * 16 + vb) * 16 + vc) * 16 + vd)

/-- The character named by a single-letter escape. -/
def jUnescape : Char → Option Char
  | '"' => some '"'
  | '\\' => some '\\'
  | '/' => some '/'
  | 'b' => some (Char.ofNat 8)
  | 't' => some '\t'
  | 'n' => some '\n'
  | 'f' => some (Char.ofNat 12)
  | 'r' => some (Char.ofNat 13)
  | _ => none

/-- Parse a string body after the opening quote, accumulating in reverse. -/
def jParseStrBody (acc : List Char) : List Char → Option (Str × List Char)
  | '"' :: rest => some (acc.reverse, rest)
  | '\\' :: 'u' :: a :: b :: c :: d :: rest =>
      match hexQuad a b c d with
      | some n => jParseStrBody (Char.ofNat n :: acc) rest
      | none => none
  | '\\' :: e :: rest =>
      match jUnescape e with
      | some ch => jParseStrBody (ch :: acc) rest
      | none => none
  | c :: rest => jParseStrBody (c :: acc) rest
  | [] => none

/-- Parse a number: optional minus sign, then a nonempty digit run. -/
def jParseNum : List Char → Option (Int × List Char)
  | '-' :: rest =>
      match grabDigits rest with
      | ([], _) => none
      | (ds, r) => some (-(digitsVal ds : Int), r)
  | s =>
      match grabDigits s with
      | ([], _) => none
      | (ds, r) => some ((digitsVal ds : Int), r)

mutual
/-- Parse one JSON value; `none` embeds a thrown `SyntaxError`. -/
def jParseVal : Nat → List Char → Option (Json × List Char)
  | 0, _ => none
  | fuel + 1, s =>
    match jSkipWs s with
    | 'n' :: 'u' :: 'l' :: 'l' :: r => some (.jnull, r)
    | 't' :: 'r' :: 'u' :: 'e' :: r => some (.jbool true, r)
    | 'f' :: 'a' :: 'l' :: 's' :: 'e' :: r => some (.jbool false, r)
    | '"' :: r =>
        match jParseStrBody [] r with
        | some (str, r1) => some (.jstr str, r1)
        | none => none
    | '[' :: r =>
        match jSkipWs r with
        | ']' :: r1 => some (.jarr [], r1)
        | r1 =>
            match jParseElems fuel r1 with
            | some (es, r2) => some (.jarr es, r2)
            | none => none
    | '{' :: r =>
        match jSkipWs r with
        | '}' :: r1 => some (.jobj [], r1)
        | r1 =>
            match jParseFields fuel r1 with
            | some (fs, r2) => some (.jobj fs, r2)
            | none => none
    | c :: r =>
        if c = '-' || isDigitCh c then
          match jParseNum (c :: r) with
          | some (n, r1) => some (.jnum n, r1)
          | none => none
        else none
    | [] => none
/-- Parse one or more comma-separated array elements up to `]`. -/
def jParseElems : Nat → List Char → Option (List Json × List Char)
  | 0, _ => none
  | fuel + 1, s =>
    match jParseVal fuel s with
    | none => none
    | some (v, r) =>
        match jSkipWs r with
        | ',' :: r1 =>
            match jParseElems fuel r1 with
            | some (vs, r2) => some (v :: vs, r2)
            | none => none
        | ']' :: r1 => some ([v], r1)
        | _ => none
/-- Parse one or more comma-separated `"key":value` members up to `}`. -/
def jParseFields : Nat → List Char → Option (List (Str × Json) × List Char)
  | 0, _ => none
  | fuel + 1, s =>
    match jSkipWs s with
    | '"' :: r =>
        match jParseStrBody [] r with
        | none => none
        | some (key, r1) =>
            match jSkipWs r1 with
            | ':' :: r2 =>
                match jParseVal fuel r2 with
                | none => none
                | some (v, r3) =>
                    match jSkipWs r3 with
                    | ',' :: r4 =>
                        match jParseFields fuel r4 with
                        | some (fs, r5) => some ((key, v) :: fs, r5)
                        | none => none
                    | '}' :: r4 => some ([(key, v)], r4)
                    | _ => none
            | _ => none
    | _ => none
end

/-- `JSON.parse`: parse a complete document, requiring only trailing
whitespace after the value; `none` embeds the thrown `SyntaxError`. -/
def parseJson (s : Str) : Option Json :=
  match jParseVal (s.length + 1) s with
  | some (j, r) => if (jSkipWs r).isEmpty then some j else none
  | none => none

/-! ## Round trip of the decimal digits -/

/-- Recursive description of the digit list, used as the proof-side view of
`natDecimalAux` (which carries fuel only to stay kernel-reducible). -/
def digitsSpec (n : Nat) : List Char :=
  if h : n < 10 then [Char.ofNat (48 + n)]
  else digitsSpec (n / 10) ++ [Char.ofNat (48 + n % 10)]
termination_by n
decreasing_by omega

theorem natDecimalAux_spec :
    ∀ fuel n acc, n < fuel → natDecimalAux fuel n acc = digitsSpec n ++ acc := by
  intro fuel
  induction fuel with
  | zero => omega
  | succ f ih =>
      intro n acc hn
      rw [natDecimalAux, digitsSpec]
      by_cases h : n < 10
      · simp [h]
      · rw [if_neg h, dif_neg h, ih (n / 10) _ (by omega), List.append_assoc]
        simp

theorem natDecimal_spec (n : Nat) : natDecimal n = digitsSpec n := by
  rw [natDecimal, natDecimalAux_spec (n + 1) n [] (by omega), List.append_nil]

theorem charValue_digit (k : Nat) (h : k < 10) : (Char.ofNat (48 + k)).toNat = 48 + k := by
  have hv : (48 + k).isValidChar := Or.inl (by omega)
  unfold Char.ofNat
  simp only [hv, dite_true]
  rfl

theorem isDigitCh_digit (k : Nat) (h : k < 10) : isDigitCh (Char.ofNat (48 + k)) = true := by
  simp only [isDigitCh, charValue_digit k h, Bool.and_eq_true, decide_eq_true_eq]
  omega

theorem digitsSpec_ne_nil (n : Nat) : digitsSpec n ≠ [] := by
  rw [digitsSpec]
  by_cases h : n < 10 <;> simp [h]

theorem digitsSpec_all_digits (n : Nat) : ∀ c ∈ digitsSpec n, isDigitCh c = true := by
  induction n using Nat.strongRecOn with
  | _ n ih =>
      rw [digitsSpec]
      by_cases h : n < 10
      · simp only [dif_pos h, List.mem_singleton]
        intro c hc
        subst hc
        exact isDigitCh_digit n h
      · simp only [dif_neg h]
        intro c hc
        rcases List.mem_append.mp hc with hL | hR
        · exact ih (n / 10) (by omega) c hL
        · rw [List.mem_singleton] at hR
          subst hR
          exact isDigitCh_digit (n % 10) (by omega)

theorem digitsVal_digitsSpec (n : Nat) : digitsVal (digitsSpec n) = n := by
  induction n using Nat.strongRecOn with
  | _ n ih =>
      rw [digitsSpec]
      by_cases h : n < 10
      · simp only [dif_pos h, digitsVal, List.foldl_cons, List.foldl_nil,
          charValue_digit n h]
        omega
      · simp only [dif_neg h, digitsVal, List.foldl_append, List.foldl_cons, List.foldl_nil]
        have hv := ih (n / 10) (by omega)
        rw [digitsVal] at hv
        rw [hv, charValue_digit (n % 10) (by omega)]
        omega

theorem digitsSpec_head (n : Nat) :
    ∃ c t, digitsSpec n = c :: t ∧ isDigitCh c = true := by
  match h : digitsSpec n with
  | [] => exact absurd h (digitsSpec_ne_nil n)
  | c :: t =>
      exact ⟨c, t, rfl, digitsSpec_all_digits n c (h ▸ List.mem_cons_self c t)⟩

/-! ## Round trip of numbers -/

/-- A continuation that cannot extend a parsed number: empty input or a
leading non-digit.  Every delimiter the printer emits after a number
qualifies. -/
def numStop : List Char → Bool
  | [] => true
  | c :: _ => !isDigitCh c

theorem grabDigits_nonDigit {c : Char} {t : List Char} (h : isDigitCh c = false) :
    grabDigits (c :: t) = ([], c :: t) := by
  simp [grabDigits, h]

theorem grabDigits_stop {s : List Char} (h : numStop s = true) :
    grabDigits s = ([], s) := by
  match s with
  | [] => rfl
  | c :: t =>
      simp only [numStop, Bool.not_eq_true'] at h
      exact grabDigits_nonDigit h

theorem grabDigits_run (ds : List Char) (hds : ∀ c ∈ ds, isDigitCh c = true)
    (rest : List Char) (hrest : grabDigits rest = ([], rest)) :
    grabDigits (ds ++ rest) = (ds, rest) := by
  induction ds with
  | nil => simpa using hrest
  | cons c t ih =>
      have hc : isDigitCh c = true := hds c (List.mem_cons_self c t)
      have ht := ih (fun x hx => hds x (List.mem_cons_of_mem c hx))
      simp [grabDigits, hc, ht]

theorem isDigitCh_not_minus {c : Char} (h : isDigitCh c = true) : c ≠ '-' := by
  intro hc
  subst hc
  exact absurd h (by decide)

theorem jParseNum_intDecimal (n : Int) (rest : List Char) (hr : numStop rest = true) :
    jParseNum (intDecimal n ++ rest) = some (n, rest) := by
  obtain ⟨c, t, hct, hcd⟩ := digitsSpec_head n.natAbs
  have hgrab : grabDigits (digitsSpec n.natAbs ++ rest) = (digitsSpec n.natAbs, rest) :=
    grabDigits_run _ (digitsSpec_all_digits _) _ (grabDigits_stop hr)
  have hval2 : digitsVal (c :: t) = n.natAbs := by
    rw [← hct]
    exact digitsVal_digitsSpec _
  by_cases hn : n < 0
  · have harg : intDecimal n ++ rest = '-' :: (digitsSpec n.natAbs ++ rest) := by
      simp [intDecimal, hn, natDecimal_spec]
    rw [harg]
    simp only [jParseNum]
    rw [hgrab, hct]
    simp only [hval2]
    have hneg : -(n.natAbs : Int) = n := by omega
    rw [hneg]
  · have harg : intDecimal n ++ rest = c :: (t ++ rest) := by
      rw [intDecimal, if_neg hn, natDecimal_spec, hct, List.cons_append]
    have hgrab2 : grabDigits (c :: (t ++ rest)) = (c :: t, rest) := by
      have h := hgrab
      rwa [hct, List.cons_append] at h
    rw [harg, jParseNum.eq_def]
    split
    · rename_i heq
      rw [List.cons.injEq] at heq
      exact absurd heq.1 (isDigitCh_not_minus hcd)
    · rw [hgrab2]
      simp only [hval2]
      have hpos : (n.natAbs : Int) = n := by omega
      rw [hpos]

/-! ## Round trip of strings -/

theorem hexNib_hexChar (k : Nat) (h : k < 16) : hexNib (hexChar k) = some k := by
  have hfin : ∀ m : Fin 16, hexNib (hexChar m.val) = some m.val := by decide
  exact hfin ⟨k, h⟩

theorem jParseStrBody_escape (c : Char) (acc t : List Char) :
    jParseStrBody acc (jEscapeChar c ++ t) = jParseStrBody (c :: acc) t := by
  rw [jEscapeChar]
  split_ifs with h1 h2 h3 h4 h5 h6 h7 h8
  · subst h1; rfl
  · subst h2; rfl
  · subst h3; rfl
  · subst h4; rfl
  · subst h5; rfl
  · subst h6; rfl
  · subst h7; rfl
  · have hnib0 : hexNib '0' = some 0 := rfl
    have hhi : hexNib (hexChar (c.toNat / 16)) = some (c.toNat / 16) :=
      hexNib_hexChar _ (by omega)
    have hlo : hexNib (hexChar (c.toNat % 16)) = some (c.toNat % 16) :=
      hexNib_hexChar _ (by omega)
    simp only [List.cons_append, jParseStrBody, hexQuad, hnib0, hhi, hlo,
      Option.bind_eq_bind, Option.some_bind]
    have harith : ((0 * 16 + 0) * 16 + c.toNat / 16) * 16 + c.toNat % 16 = c.toNat := by
      omega
    rw [harith, Char.ofNat_toNat]
    rfl
  · rw [List.singleton_append, jParseStrBody.eq_def]
    split
    · rename_i heq
      rw [List.cons.injEq] at heq
      exact absurd heq.1 h1
    · rename_i heq
      rw [List.cons.injEq] at heq
      exact absurd heq.1 h2
    · rename_i heq
      rw [List.cons.injEq] at heq
      exact absurd heq.1 h2
    · rename_i c2 rest2 heq
      rw [List.cons.injEq] at heq
      rw [heq.1, heq.2]
    · rename_i heq
      exact absurd heq (List.cons_ne_nil c t)

theorem jParseStrBody_quote (s : Str) : ∀ acc t,
    jParseStrBody acc (s.flatMap jEscapeChar ++ '"' :: t) = some (acc.reverse ++ s, t) := by
  induction s with
  | nil =>
      intro acc t
      simp [jParseStrBody]
  | cons c cs ih =>
      intro acc t
      rw [List.flatMap_cons, List.append_assoc, jParseStrBody_escape, ih]
      simp

/-! ## Shape of printed output -/

theorem isDigitCh_bounds {c : Char} (h : isDigitCh c = true) :
    48 ≤ c.toNat ∧ c.toNat ≤ 57 := by
  simpa [isDigitCh, Bool.and_eq_true, decide_eq_true_eq] using h

theorem digit_not_ws {c : Char} (h : isDigitCh c = true) : isJWs c = false := by
  have hs : c ≠ ' ' := fun e => absurd h (by subst e; decide)
  have ht : c ≠ '\t' := fun e => absurd h (by subst e; decide)
  have hn : c ≠ '\n' := fun e => absurd h (by subst e; decide)
  have hr : c ≠ Char.ofNat 13 := fun e => absurd h (by subst e; decide)
  simp [isJWs, hs, ht, hn, hr]

theorem digit_not_special {c : Char} (h : isDigitCh c = true) :
    c ≠ ']' ∧ c ≠ '}' ∧ c ≠ 'n' ∧ c ≠ 't' ∧ c ≠ 'f' ∧ c ≠ '"' ∧ c ≠ '[' ∧ c ≠ '{' := by
  have hne : ∀ d : Char, isDigitCh d = false → c ≠ d := by
    intro d hd e
    subst e
    rw [h] at hd
    exact absurd hd (by decide)
  exact ⟨hne _ (by decide), hne _ (by decide), hne _ (by decide), hne _ (by decide),
    hne _ (by decide), hne _ (by decide), hne _ (by decide), hne _ (by decide)⟩

/-- Every printed value starts with a character that is not whitespace, not a
closer and not a separator, so `jSkipWs` is the identity in front of it and
the parser's list matches are decided by that head. -/
theorem jPrint_head (j : Json) :
    ∃ c t, jPrint j = c :: t ∧ isJWs c = false ∧ c ≠ ']' ∧ c ≠ '}' := by
  cases j with
  | jnull => exact ⟨'n', _, rfl, by decide⟩
  | jbool b =>
      cases b
      · exact ⟨'f', _, rfl, by decide⟩
      · exact ⟨'t', _, rfl, by decide⟩
  | jstr s => exact ⟨'"', _, rfl, by decide⟩
  | jarr es => exact ⟨'[', _, rfl, by decide⟩
  | jobj fs => exact ⟨'{', _, rfl, by decide⟩
  | jnum n =>
      by_cases hn : n < 0
      · refine ⟨'-', natDecimal n.natAbs, ?_, by decide, by decide, by decide⟩
        simp [jPrint, intDecimal, hn]
      · obtain ⟨c, t, hct, hcd⟩ := digitsSpec_head n.natAbs
        obtain ⟨hcl, hcr, _⟩ := digit_not_special hcd
        refine ⟨c, t, ?_, digit_not_ws hcd, hcl, hcr⟩
        simp [jPrint, intDecimal, hn, natDecimal_spec, hct]

theorem jSkipWs_cons {c : Char} {t : List Char} (h : isJWs c = false) :
    jSkipWs (c :: t) = c :: t := by
  simp [jSkipWs, h]

theorem jSkipWs_print (j : Json) (x : List Char) :
    jSkipWs (jPrint j ++ x) = jPrint j ++ x := by
  obtain ⟨c, t, hct, hws, _, _⟩ := jPrint_head j
  rw [hct, List.cons_append, jSkipWs_cons hws]

theorem numStop_cons {c : Char} (t : List Char) (h : isDigitCh c = false) :
    numStop (c :: t) = true := by
  simp [numStop, h]

/-! ## The codec round trip -/

theorem jPrintElems_cons (e : Json) (es : List Json) :
    jPrintElems (e :: es) = jPrint e ++ jPrintElemsTail es := rfl

theorem jPrintElemsTail_cons (e : Json) (es : List Json) :
    jPrintElemsTail (e :: es) = ',' :: (jPrint e ++ jPrintElemsTail es) := rfl

theorem jPrintFields_cons (k : Str) (v : Json) (fs : List (Str × Json)) :
    jPrintFields ((k, v) :: fs) = jQuote k ++ ':' :: (jPrint v ++ jPrintFieldsTail fs) := rfl

theorem jPrintFieldsTail_cons (k : Str) (v : Json) (fs : List (Str × Json)) :
    jPrintFieldsTail ((k, v) :: fs)
      = ',' :: (jQuote k ++ ':' :: (jPrint v ++ jPrintFieldsTail fs)) := rfl

theorem jSkipWs_printElems (e : Json) (es : List Json) (x : List Char) :
    jSkipWs (jPrintElems (e :: es) ++ x) = jPrintElems (e :: es) ++ x := by
  rw [jPrintElems_cons, List.append_assoc, jSkipWs_print, ← List.append_assoc]

theorem jSkipWs_printFields (k : Str) (v : Json) (fs : List (Str × Json)) (x : List Char) :
    jSkipWs (jPrintFields ((k, v) :: fs) ++ x) = jPrintFields ((k, v) :: fs) ++ x := by
  rw [jPrintFields_cons, jQuote]
  simp only [List.cons_append]
  rw [jSkipWs_cons (show isJWs '"' = false by decide)]

/-- The parser's number branch: a value whose head is a sign or digit parses
through `jParseNum`. -/
theorem jParseVal_numCase (f : Nat) (c0 : Char) (t : List Char)
    (hws : isJWs c0 = false) (e1 : c0 ≠ 'n') (e2 : c0 ≠ 't')
    (e3 : c0 ≠ 'f') (e4 : c0 ≠ '"') (e5 : c0 ≠ '[')
    (e6 : c0 ≠ '{') (e7 : (c0 = '-' || isDigitCh c0) = true) :
    jParseVal (f + 1) (c0 :: t)
      = (match jParseNum (c0 :: t) with
         | some (n, r1) => some (.jnum n, r1)
         | none => none) := by
  simp only [jParseVal, jSkipWs_cons hws]
  simp [e1, e2, e3, e4, e5, e6, e7]

/-- The parser's array branch for a printed nonempty element list reduces to
wrapping `jParseElems`; the head of the first printed element is never `]`. -/
theorem jParseVal_arrCase (e : Json) (es : List Json) (f : Nat) (rest : List Char) :
    jParseVal (f + 1) ('[' :: (jPrintElems (e :: es) ++ ']' :: rest))
      = (match jParseElems f (jPrintElems (e :: es) ++ ']' :: rest) with
         | some (vs, r) => some (Json.jarr vs, r)
         | none => none) := by
  obtain ⟨c, ct, hct, hws, hcb, _⟩ := jPrint_head e
  have hshape : jPrintElems (e :: es) ++ ']' :: rest
      = c :: (ct ++ (jPrintElemsTail es ++ ']' :: rest)) := by
    rw [jPrintElems_cons, hct]
    simp [List.append_assoc]
  have hstep : jParseVal (f + 1) ('[' :: (jPrintElems (e :: es) ++ ']' :: rest))
      = (match jSkipWs (jPrintElems (e :: es) ++ ']' :: rest) with
         | ']' :: r1 => some (Json.jarr [], r1)
         | r1 => match jParseElems f r1 with
                 | some (es2, r2) => some (Json.jarr es2, r2)
                 | none => none) := rfl
  rw [hstep, jSkipWs_printElems]
  rw [hshape]
  split
  · rename_i heq
    rw [List.cons.injEq] at heq
    exact absurd heq.1 hcb
  · rw [← hshape]

/-- The parser's object branch for a printed nonempty field list reduces to
wrapping `jParseFields`; a printed field list always starts with `"`. -/
theorem jParseVal_objCase (k : Str) (v : Json) (fs : List (Str × Json))
    (f : Nat) (rest : List Char) :
    jParseVal (f + 1) ('{' :: (jPrintFields ((k, v) :: fs) ++ '}' :: rest))
      = (match jParseFields f (jPrintFields ((k, v) :: fs) ++ '}' :: rest) with
         | some (fs2, r) => some (Json.jobj fs2, r)
         | none => none) := by
  have hshape : jPrintFields ((k, v) :: fs) ++ '}' :: rest
      = '"' :: (k.flatMap jEscapeChar
          ++ ('"' :: (':' :: (jPrint v ++ (jPrintFieldsTail fs ++ '}' :: rest))))) := by
    rw [jPrintFields_cons, jQuote]
    simp [List.append_assoc]
  have hstep : jParseVal (f + 1) ('{' :: (jPrintFields ((k, v) :: fs) ++ '}' :: rest))
      = (match jSkipWs (jPrintFields ((k, v) :: fs) ++ '}' :: rest) with
         | '}' :: r1 => some (Json.jobj [], r1)
         | r1 => match jParseFields f r1 with
                 | some (fs2, r2) => some (Json.jobj fs2, r2)
                 | none => none) := rfl
  rw [hstep, jSkipWs_printFields]
  rw [hshape]
  split
  · rename_i heq
    rw [List.cons.injEq] at heq
    exact absurd heq.1 (by decide)
  · rw [← hshape]

/-- One-step unfolding of `jParseElems` at successor fuel. -/
theorem jParseElems_succ (f : Nat) (s : List Char) :
    jParseElems (f + 1) s
      = (match jParseVal f s with
         | none => none
         | some (v, r) =>
             match jSkipWs r with
             | ',' :: r1 =>
                 match jParseElems f r1 with
                 | some (vs, r2) => some (v :: vs, r2)
                 | none => none
             | ']' :: r1 => some ([v], r1)
             | _ => none) := rfl

/-- One-step unfolding of `jParseFields` at successor fuel. -/
theorem jParseFields_succ (f : Nat) (s : List Char) :
    jParseFields (f + 1) s
      = (match jSkipWs s with
         | '"' :: r =>
             match jParseStrBody [] r with
             | none => none
             | some (key, r1) =>
                 match jSkipWs r1 with
                 | ':' :: r2 =>
                     match jParseVal f r2 with
                     | none => none
                     | some (v, r3) =>
                         match jSkipWs r3 with
                         | ',' :: r4 =>
                             match jParseFields f r4 with
                             | some (fs, r5) => some ((key, v) :: fs, r5)
                             | none => none
                         | '}' :: r4 => some ([(key, v)], r4)
                         | _ => none
                 | _ => none
         | _ => none) := rfl

mutual
/-- Parsing a printed value (followed by a non-digit continuation) recovers
it and consumes exactly its characters. -/
theorem jParseVal_print : ∀ (j : Json) (fuel : Nat) (rest : List Char),
    (jPrint j).length < fuel → numStop rest = true →
    jParseVal fuel (jPrint j ++ rest) = some (j, rest)
  | .jnull, fuel, rest, hf, _ => by
      cases fuel with
      | zero => simp [jPrint] at hf
      | succ f => simp [jPrint, jParseVal, jSkipWs, isJWs]
  | .jbool b, fuel, rest, hf, _ => by
      cases fuel with
      | zero => cases b <;> simp [jPrint] at hf
      | succ f => cases b <;> simp [jPrint, jParseVal, jSkipWs, isJWs]
  | .jnum n, fuel, rest, hf, hr => by
      cases fuel with
      | zero => exact absurd hf (Nat.not_lt_zero _)
      | succ f =>
          have hnum := jParseNum_intDecimal n rest hr
          by_cases hn : n < 0
          · have harg : jPrint (Json.jnum n) ++ rest
                = '-' :: (natDecimal n.natAbs ++ rest) := by
              simp [jPrint, intDecimal, hn]
            have hcase := jParseVal_numCase f '-' (natDecimal n.natAbs ++ rest)
              (by decide) (by decide) (by decide) (by decide) (by decide) (by decide)
              (by decide) (by decide)
            rw [harg, hcase,
              show ('-' : Char) :: (natDecimal n.natAbs ++ rest) = intDecimal n ++ rest by
                simp [intDecimal, hn],
              hnum]
          · obtain ⟨c, ct, hct, hcd⟩ := digitsSpec_head n.natAbs
            obtain ⟨_, _, hn2, ht2, hf2, hq2, hbk2, hbc2⟩ := digit_not_special hcd
            have harg : jPrint (Json.jnum n) ++ rest = c :: (ct ++ rest) := by
              simp [jPrint, intDecimal, hn, natDecimal_spec, hct]
            have hcase := jParseVal_numCase f c (ct ++ rest) (digit_not_ws hcd)
              hn2 ht2 hf2 hq2 hbk2 hbc2 (by simp [hcd])
            rw [harg, hcase,
              show c :: (ct ++ rest) = intDecimal n ++ rest by
                simp [intDecimal, hn, natDecimal_spec, hct],
              hnum]
  | .jstr s, fuel, rest, hf, _ => by
      cases fuel with
      | zero => exact absurd hf (Nat.not_lt_zero _)
      | succ f =>
          have harg : jPrint (Json.jstr s) ++ rest
              = '"' :: (s.flatMap jEscapeChar ++ ('"' :: rest)) := by
            simp [jPrint, jQuote]
          rw [harg]
          simp [jParseVal, jSkipWs, isJWs, jParseStrBody_quote]
  | .jarr [], fuel, rest, hf, _ => by
      cases fuel with
      | zero => simp [jPrint] at hf
      | succ f => simp [jPrint, jPrintElems, jParseVal, jSkipWs, isJWs]
  | .jarr (e :: es), fuel, rest, hf, _ => by
      cases fuel with
      | zero => simp [jPrint] at hf
      | succ f =>
          have hfe : (jPrintElems (e :: es)).length + 1 < f := by
            simp only [jPrint, List.length_cons, List.length_append,
              List.length_singleton] at hf
            omega
          have key := jParseElems_print e es f rest hfe
          have harr : jPrint (Json.jarr (e :: es)) ++ rest
              = '[' :: (jPrintElems (e :: es) ++ ']' :: rest) := by
            simp [jPrint]
          rw [harr, jParseVal_arrCase e es f rest, key]
  | .jobj [], fuel, rest, hf, _ => by
      cases fuel with
      | zero => simp [jPrint] at hf
      | succ f => simp [jPrint, jPrintFields, jParseVal, jSkipWs, isJWs]
  | .jobj ((k, v) :: fs), fuel, rest, hf, _ => by
      cases fuel with
      | zero => simp [jPrint] at hf
      | succ f =>
          have hfm : (jPrintFields ((k, v) :: fs)).length + 1 < f := by
            simp only [jPrint, List.length_cons, List.length_append,
              List.length_singleton] at hf
            omega
          have key := jParseFields_print k v fs f rest hfm
          have hobj : jPrint (Json.jobj ((k, v) :: fs)) ++ rest
              = '{' :: (jPrintFields ((k, v) :: fs) ++ '}' :: rest) := by
            simp [jPrint]
          rw [hobj, jParseVal_objCase k v fs f rest, key]
termination_by j _ _ _ _ => sizeOf j

/-- Parsing a printed nonempty element list up to its closing `]` recovers
the elements. -/
theorem jParseElems_print : ∀ (e : Json) (es : List Json) (fuel : Nat) (rest : List Char),
    (jPrintElems (e :: es)).length + 1 < fuel →
    jParseElems fuel (jPrintElems (e :: es) ++ ']' :: rest) = some (e :: es, rest)
  | e, [], fuel, rest, hf => by
      cases fuel with
      | zero => omega
      | succ f =>
          have hfe : (jPrint e).length < f := by
            simp only [jPrintElems_cons, jPrintElemsTail, List.append_nil,
              List.length_append] at hf ⊢
            omega
          have hv := jParseVal_print e f (']' :: rest) hfe (numStop_cons _ (by decide))
          have harg : jPrintElems (e :: []) ++ ']' :: rest = jPrint e ++ ']' :: rest := by
            simp [jPrintElems_cons, jPrintElemsTail]
          rw [harg, jParseElems_succ, hv]
          simp [jSkipWs, isJWs]
  | e, x :: xs, fuel, rest, hf => by
      cases fuel with
      | zero => omega
      | succ f =>
          simp only [jPrintElems_cons, jPrintElemsTail_cons, List.length_append,
            List.length_cons] at hf
          have hfe : (jPrint e).length < f := by omega
          have hfx : (jPrintElems (x :: xs)).length + 1 < f := by
            simp only [jPrintElems_cons, List.length_append]
            omega
          have hv := jParseVal_print e f
            (',' :: (jPrintElems (x :: xs) ++ ']' :: rest)) hfe
            (numStop_cons _ (by decide))
          have key := jParseElems_print x xs f rest hfx
          have harg : jPrintElems (e :: x :: xs) ++ ']' :: rest
              = jPrint e ++ ',' :: (jPrintElems (x :: xs) ++ ']' :: rest) := by
            rw [jPrintElems_cons, jPrintElemsTail_cons, jPrintElems_cons]
            simp [List.append_assoc]
          rw [harg, jParseElems_succ, hv]
          have hcomma : jSkipWs (',' :: (jPrintElems (x :: xs) ++ ']' :: rest))
              = ',' :: (jPrintElems (x :: xs) ++ ']' :: rest) := by
            simp [jSkipWs, isJWs]
          simp only [hcomma, key]
termination_by e es _ _ _ => sizeOf e + sizeOf es

/-- Parsing a printed nonempty field list up to its closing `}` recovers the
fields. -/
theorem jParseFields_print :
    ∀ (k : Str) (v : Json) (fs : List (Str × Json)) (fuel : Nat) (rest : List Char),
    (jPrintFields ((k, v) :: fs)).length + 1 < fuel →
    jParseFields fuel (jPrintFields ((k, v) :: fs) ++ '}' :: rest)
      = some ((k, v) :: fs, rest)
  | k, v, [], fuel, rest, hf => by
      cases fuel with
      | zero => omega
      | succ f =>
          have hfe : (jPrint v).length < f := by
            simp only [jPrintFields_cons, jPrintFieldsTail, jQuote, List.append_nil,
              List.length_append, List.length_cons] at hf
            omega
          have hv := jParseVal_print v f ('}' :: rest) hfe (numStop_cons _ (by decide))
          have harg : jPrintFields ((k, v) :: []) ++ '}' :: rest
              = '"' :: (k.flatMap jEscapeChar
                  ++ ('"' :: (':' :: (jPrint v ++ '}' :: rest)))) := by
            rw [jPrintFields_cons, jQuote]
            simp [jPrintFieldsTail, List.append_assoc]
          rw [harg, jParseFields_succ]
          simp only [jSkipWs_cons (show isJWs '"' = false by decide)]
          rw [jParseStrBody_quote]
          simp only [List.reverse_nil, List.nil_append,
            jSkipWs_cons (show isJWs ':' = false by decide), hv]
          simp [jSkipWs, isJWs]
  | k, v, (k2, v2) :: fs2, fuel, rest, hf => by
      cases fuel with
      | zero => omega
      | succ f =>
          simp only [jPrintFields_cons, jPrintFieldsTail_cons, jQuote,
            List.length_append, List.length_cons] at hf
          have hfe : (jPrint v).length < f := by omega
          have hfx : (jPrintFields ((k2, v2) :: fs2)).length + 1 < f := by
            simp only [jPrintFields_cons, jQuote, List.length_append, List.length_cons]
            omega
          have hv := jParseVal_print v f
            (',' :: (jPrintFields ((k2, v2) :: fs2) ++ '}' :: rest)) hfe
            (numStop_cons _ (by decide))
          have key := jParseFields_print k2 v2 fs2 f rest hfx
          have harg : jPrintFields ((k, v) :: (k2, v2) :: fs2) ++ '}' :: rest
              = '"' :: (k.flatMap jEscapeChar
                  ++ ('"' :: (':' :: (jPrint v
                      ++ (',' :: (jPrintFields ((k2, v2) :: fs2) ++ '}' :: rest)))))) := by
            rw [jPrintFields_cons, jPrintFieldsTail_cons, jPrintFields_cons, jQuote]
            simp [List.append_assoc]
          rw [harg, jParseFields_succ]
          simp only [jSkipWs_cons (show isJWs '"' = false by decide)]
          rw [jParseStrBody_quote]
          simp only [List.reverse_nil, List.nil_append,
            jSkipWs_cons (show isJWs ':' = false by decide), hv]
          have hcomma : jSkipWs (',' :: (jPrintFields ((k2, v2) :: fs2) ++ '}' :: rest))
              = ',' :: (jPrintFields ((k2, v2) :: fs2) ++ '}' :: rest) := by
            simp [jSkipWs, isJWs]
          simp only [hcomma, key]
termination_by k v fs _ _ _ => sizeOf v + sizeOf fs
end

/-- `JSON.parse` inverts `JSON.stringify` on every runtime value. -/
theorem parseJson_jPrint (j : Json) : parseJson (jPrint j) = some j := by
  have hv := jParseVal_print j ((jPrint j).length + 1) [] (by omega) rfl
  rw [List.append_nil] at hv
  rw [parseJson, hv]
  simp [jSkipWs]

/-- Two values with the same printed form are equal. -/
theorem jPrint_injective {a b : Json} (h : jPrint a = jPrint b) : a = b := by
  have ha := parseJson_jPrint a
  rw [h, parseJson_jPrint b] at ha
  exact (Option.some.inj ha).symm


/-! ## `encodeURIComponent` / `decodeURIComponent`

`encodeURIComponent` keeps the unreserved characters and writes every other
character as the uppercase-hex `%XX` escapes of its UTF-8 bytes.
`decodeURIComponent` is the ECMA-262 `Decode` operation: it reads one escape
group at a time, checks that it is a valid UTF-8 sequence (rejecting overlong
forms and surrogate code points) and rebuilds the character; a thrown
`URIError` is `none`.  The worker recurses on a fuel counter (one more than
the input length suffices, every step consuming at least one character) so
that it stays kernel-reducible. -/

/-- The characters `encodeURIComponent` does not escape. -/
def isUriUnreserved (c : Char) : Bool :=
  (65 ≤ c.toNat && c.toNat ≤ 90) || (97 ≤ c.toNat && c.toNat ≤ 122) ||
    (48 ≤ c.toNat && c.toNat ≤ 57) || c = '-' || c = '_' || c = '.' ||
    c = '!' || c = '~' || c = '*' || c = Char.ofNat 39 || c = '(' || c = ')'

/-- UTF-8 bytes of one scalar value. -/
def utf8Bytes (c : Char) : List Nat :=
  let n := c.toNat
  if n < 128 then [n]
  else if n < 2048 then [192 + n / 64, 128 + n % 64]
  else if n < 65536 then [224 + n / 4096, 128 + n / 64 % 64, 128 + n % 64]
  else [240 + n / 262144, 128 + n / 4096 % 64, 128 + n / 64 % 64, 128 + n % 64]

/-- Uppercase hex digit for `n < 16`. -/
def hexUpper (n : Nat) : Char :=
  if n < 10 then Char.ofNat (48 + n) else Char.ofNat (55 + n)

/-- The three-character escape `%XX` of one byte. -/
def pctByte (b : Nat) : List Char := ['%', hexUpper (b / 16), hexUpper (b % 16)]

def encodeURIComponent (s : Str) : Str :=
  s.flatMap fun c =>
    if isUriUnreserved c then [c] else (utf8Bytes c).flatMap pctByte

/-- Byte value of a two-hex-digit escape payload (either case accepted). -/
def pctHexPair (a b : Char) : Option Nat :=
  match hexNib a, hexNib b with
  | some va, some vb => some (va * 16 + vb)
  | _, _ => none

/-- Worker for `decodeURIComponent`, structural on the fuel counter. -/
def decodeUriAux : Nat → Str → Option Str
  | 0, _ => none
  | _ + 1, [] => some []
  | fuel + 1, '%' :: a :: b :: rest =>
      match pctHexPair a b with
      | none => none
      | some v1 =>
          if v1 < 128 then
            match decodeUriAux fuel rest with
            | some t => some (Char.ofNat v1 :: t)
            | none => none
          else if 194 ≤ v1 ∧ v1 ≤ 223 then
            match rest with
            | '%' :: a2 :: b2 :: rest2 =>
                match pctHexPair a2 b2 with
                | some v2 =>
                    if 128 ≤ v2 ∧ v2 < 192 then
                      match decodeUriAux fuel rest2 with
                      | some t => some (Char.ofNat ((v1 - 192) * 64 + (v2 - 128)) :: t)
                      | none => none
                    else none
                | none => none
            | _ => none
          else if 224 ≤ v1 ∧ v1 ≤ 239 then
            match rest with
            | '%' :: a2 :: b2 :: '%' :: a3 :: b3 :: rest2 =>
                match pctHexPair a2 b2, pctHexPair a3 b3 with
                | some v2, some v3 =>
                    if 128 ≤ v2 ∧ v2 < 192 ∧ 128 ≤ v3 ∧ v3 < 192 then
                      if 2048 ≤ (v1 - 224) * 4096 + (v2 - 128) * 64 + (v3 - 128) ∧
                          ¬(55296 ≤ (v1 - 224) * 4096 + (v2 - 128) * 64 + (v3 - 128) ∧
                            (v1 - 224) * 4096 + (v2 - 128) * 64 + (v3 - 128) ≤ 57343) then
                        match decodeUriAux fuel rest2 with
                        | some t => some (Char.ofNat
                            ((v1 - 224) * 4096 + (v2 - 128) * 64 + (v3 - 128)) :: t)
                        | none => none
                      else none
                    else none
                | _, _ => none
            | _ => none
          else if 240 ≤ v1 ∧ v1 ≤ 244 then
            match rest with
            | '%' :: a2 :: b2 :: '%' :: a3 :: b3 :: '%' :: a4 :: b4 :: rest2 =>
                match pctHexPair a2 b2, pctHexPair a3 b3, pctHexPair a4 b4 with
                | some v2, some v3, some v4 =>
                    if 128 ≤ v2 ∧ v2 < 192 ∧ 128 ≤ v3 ∧ v3 < 192 ∧
                        128 ≤ v4 ∧ v4 < 192 then
                      if 65536 ≤ (v1 - 240) * 262144 + (v2 - 128) * 4096
                            + (v3 - 128) * 64 + (v4 - 128) ∧
                          (v1 - 240) * 262144 + (v2 - 128) * 4096
                            + (v3 - 128) * 64 + (v4 - 128) ≤ 1114111 then
                        match decodeUriAux fuel rest2 with
                        | some t => some (Char.ofNat ((v1 - 240) * 262144
                            + (v2 - 128) * 4096 + (v3 - 128) * 64 + (v4 - 128)) :: t)
                        | none => none
                      else none
                    else none
                | _, _, _ => none
            | _ => none
          else none
  | _ + 1, '%' :: _ => none
  | fuel + 1, c :: rest =>
      match decodeUriAux fuel rest with
      | some t => some (c :: t)
      | none => none

def decodeURIComponent (s : Str) : Option Str := decodeUriAux (s.length + 1) s

/-! ## Round trip of the URI component codec -/

theorem charValue_small (m : Nat) (h : m < 55296) : (Char.ofNat m).toNat = m := by
  have hv : m.isValidChar := Or.inl h
  unfold Char.ofNat
  simp only [hv, dite_true]
  rfl

theorem charValid (c : Char) :
    c.toNat < 55296 ∨ (57343 < c.toNat ∧ c.toNat < 1114112) := c.valid

theorem hexNib_hexUpper (k : Nat) (h : k < 16) : hexNib (hexUpper k) = some k := by
  have hfin : ∀ m : Fin 16, hexNib (hexUpper m.val) = some m.val := by decide
  exact hfin ⟨k, h⟩

theorem pctHexPair_byte (b : Nat) (h : b < 256) :
    pctHexPair (hexUpper (b / 16)) (hexUpper (b % 16)) = some b := by
  simp only [pctHexPair, hexNib_hexUpper (b / 16) (by omega),
    hexNib_hexUpper (b % 16) (by omega), Option.some.injEq]
  omega

theorem uriUnreserved_facts {c : Char} (h : isUriUnreserved c = true) :
    c.toNat < 128 ∧ c ≠ '%' := by
  have hne : c.toNat ≠ 37 → c ≠ '%' := fun hn e => hn (by rw [e]; rfl)
  simp only [isUriUnreserved, Bool.or_eq_true, Bool.and_eq_true,
    decide_eq_true_eq] at h
  rcases h with (((((((((((h | h) | h) | h) | h) | h) | h) | h) | h) | h) | h) | h)
  · exact ⟨by omega, hne (by omega)⟩
  · exact ⟨by omega, hne (by omega)⟩
  · exact ⟨by omega, hne (by omega)⟩
  · subst h; exact ⟨by decide, by decide⟩
  · subst h; exact ⟨by decide, by decide⟩
  · subst h; exact ⟨by decide, by decide⟩
  · subst h; exact ⟨by decide, by decide⟩
  · subst h; exact ⟨by decide, by decide⟩
  · subst h; exact ⟨by decide, by decide⟩
  · subst h; exact ⟨by decide, by decide⟩
  · subst h; exact ⟨by decide, by decide⟩
  · subst h; exact ⟨by decide, by decide⟩

theorem decodeUriAux_other (f : Nat) {c : Char} (t : List Char) (h : c ≠ '%') :
    decodeUriAux (f + 1) (c :: t)
      = (match decodeUriAux f t with
         | some r => some (c :: r)
         | none => none) := by
  rw [decodeUriAux.eq_def]
  split
  · omega
  · rename_i heq
    exact absurd heq (List.cons_ne_nil c t)
  · rename_i heq
    rw [List.cons.injEq] at heq
    exact absurd heq.1 h
  · rename_i heq
    rw [List.cons.injEq] at heq
    exact absurd heq.1 h
  · rename_i y1 y2 fuel2 c3 rest3 hc1 hc2 heq hcons
    have hfe : fuel2 = f := by omega
    rw [List.cons.injEq] at hcons
    rw [hfe, ← hcons.1, ← hcons.2]

theorem decodeUriAux_encode : ∀ (s : Str) (fuel : Nat),
    (encodeURIComponent s).length < fuel →
    decodeUriAux fuel (encodeURIComponent s) = some s := by
  intro s
  induction s with
  | nil =>
      intro fuel hf
      cases fuel with
      | zero => exact absurd hf (Nat.not_lt_zero _)
      | succ f => rfl
  | cons c cs ih =>
      intro fuel hf
      have henc : encodeURIComponent (c :: cs)
          = (if isUriUnreserved c then [c] else (utf8Bytes c).flatMap pctByte)
            ++ encodeURIComponent cs := by
        rw [encodeURIComponent, List.flatMap_cons]
        rfl
      rw [henc] at hf ⊢
      by_cases hu : isUriUnreserved c
      · rw [if_pos hu, List.singleton_append] at hf ⊢
        cases fuel with
        | zero => exact absurd hf (Nat.not_lt_zero _)
        | succ f =>
            rw [List.length_cons] at hf
            rw [decodeUriAux_other f _ (uriUnreserved_facts hu).2,
              ih f (by omega)]
      · rw [if_neg hu] at hf ⊢
        have hval := charValid c
        simp only [utf8Bytes] at hf ⊢
        by_cases h1 : c.toNat < 128
        · rw [if_pos h1] at hf ⊢
          simp only [List.flatMap_cons, List.flatMap_nil, pctByte, List.cons_append,
            List.nil_append, List.append_nil] at hf ⊢
          cases fuel with
          | zero => exact absurd hf (Nat.not_lt_zero _)
          | succ f =>
              simp only [List.length_cons] at hf
              simp only [decodeUriAux, pctHexPair_byte c.toNat (by omega),
                ih f (by omega)]
              rw [if_pos h1, Char.ofNat_toNat]
        · rw [if_neg h1] at hf ⊢
          by_cases h2 : c.toNat < 2048
          · rw [if_pos h2] at hf ⊢
            simp only [List.flatMap_cons, List.flatMap_nil, pctByte, List.cons_append,
              List.nil_append, List.append_nil] at hf ⊢
            cases fuel with
            | zero => exact absurd hf (Nat.not_lt_zero _)
            | succ f =>
                simp only [List.length_cons] at hf
                simp only [decodeUriAux, pctHexPair_byte (192 + c.toNat / 64) (by omega),
                  pctHexPair_byte (128 + c.toNat % 64) (by omega), ih f (by omega)]
                split_ifs <;> first
                  | (rw [show (192 + c.toNat / 64 - 192) * 64 + (128 + c.toNat % 64 - 128)
                        = c.toNat from by omega, Char.ofNat_toNat])
                  | omega
          · rw [if_neg h2] at hf ⊢
            by_cases h3 : c.toNat < 65536
            · rw [if_pos h3] at hf ⊢
              simp only [List.flatMap_cons, List.flatMap_nil, pctByte, List.cons_append,
                List.nil_append, List.append_nil] at hf ⊢
              cases fuel with
              | zero => exact absurd hf (Nat.not_lt_zero _)
              | succ f =>
                  simp only [List.length_cons] at hf
                  simp only [decodeUriAux,
                    pctHexPair_byte (224 + c.toNat / 4096) (by omega),
                    pctHexPair_byte (128 + c.toNat / 64 % 64) (by omega),
                    pctHexPair_byte (128 + c.toNat % 64) (by omega), ih f (by omega)]
                  split_ifs <;> first
                    | (rw [show (224 + c.toNat / 4096 - 224) * 4096
                          + (128 + c.toNat / 64 % 64 - 128) * 64 + (128 + c.toNat % 64 - 128)
                          = c.toNat from by omega, Char.ofNat_toNat])
                    | omega
            · rw [if_neg h3] at hf ⊢
              simp only [List.flatMap_cons, List.flatMap_nil, pctByte, List.cons_append,
                List.nil_append, List.append_nil] at hf ⊢
              cases fuel with
              | zero => exact absurd hf (Nat.not_lt_zero _)
              | succ f =>
                  simp only [List.length_cons] at hf
                  simp only [decodeUriAux,
                    pctHexPair_byte (240 + c.toNat / 262144) (by omega),
                    pctHexPair_byte (128 + c.toNat / 4096 % 64) (by omega),
                    pctHexPair_byte (128 + c.toNat / 64 % 64) (by omega),
                    pctHexPair_byte (128 + c.toNat % 64) (by omega), ih f (by omega)]
                  split_ifs <;> first
                    | (rw [show (240 + c.toNat / 262144 - 240) * 262144
                          + (128 + c.toNat / 4096 % 64 - 128) * 4096
                          + (128 + c.toNat / 64 % 64 - 128) * 64 + (128 + c.toNat % 64 - 128)
                          = c.toNat from by omega, Char.ofNat_toNat])
                    | omega

/-- `decodeURIComponent` inverts `encodeURIComponent`. -/
theorem decodeURIComponent_encode (s : Str) :
    decodeURIComponent (encodeURIComponent s) = some s := by
  rw [decodeURIComponent]
  exact decodeUriAux_encode s _ (by omega)

/-- Everything `encodeURIComponent` emits is ASCII, so `btoa` accepts it. -/
theorem encodeURIComponent_bytes (s : Str) :
    ∀ c ∈ encodeURIComponent s, c.toNat ≤ 255 := by
  intro c hc
  rw [encodeURIComponent, List.mem_flatMap] at hc
  obtain ⟨a, _, hmem⟩ := hc
  by_cases hu : isUriUnreserved a
  · rw [if_pos hu, List.mem_singleton] at hmem
    subst hmem
    have := (uriUnreserved_facts hu).1
    omega
  · rw [if_neg hu, List.mem_flatMap] at hmem
    obtain ⟨b, hbmem, hcmem⟩ := hmem
    have hb : b < 256 := by
      have hva := charValid a
      rw [utf8Bytes] at hbmem
      split_ifs at hbmem <;>
        simp only [List.mem_cons, List.mem_singleton, List.not_mem_nil, or_false] at hbmem <;>
        omega
    have hhex : ∀ k : Nat, k < 16 → (hexUpper k).toNat ≤ 255 := by
      intro k hk
      rw [hexUpper]
      split_ifs with hk10
      · rw [charValue_small _ (by omega)]
        omega
      · rw [charValue_small _ (by omega)]
        omega
    rw [pctByte] at hcmem
    simp only [List.mem_cons, List.not_mem_nil, or_false] at hcmem
    rcases hcmem with rfl | rfl | rfl
    · decide
    · exact hhex _ (by omega)
    · exact hhex _ (by omega)

/-! ## `btoa` / `atob`

`btoa` is standard base64 with `=` padding over a latin-1 string, throwing
(`none`) on any character above `U+00FF`.  `atob` is the WHATWG
forgiving-base64 decode: ASCII whitespace is stripped, up to two trailing `=`
are removed when the length is a multiple of four, any other `=` or
out-of-alphabet character throws (`none`), and a final group of two or three
sextets contributes one or two bytes. -/

/-- The base64 alphabet character of a sextet. -/
def b64Char (n : Nat) : Char :=
  if n < 26 then Char.ofNat (65 + n)
  else if n < 52 then Char.ofNat (97 + (n - 26))
  else if n < 62 then Char.ofNat (48 + (n - 52))
  else if n = 62 then '+'
  else '/'

/-- Sextet value of an alphabet character. -/
def b64Val (c : Char) : Option Nat :=
  if 65 ≤ c.toNat ∧ c.toNat ≤ 90 then some (c.toNat - 65)
  else if 97 ≤ c.toNat ∧ c.toNat ≤ 122 then some (c.toNat - 97 + 26)
  else if 48 ≤ c.toNat ∧ c.toNat ≤ 57 then some (c.toNat - 48 + 52)
  else if c = '+' then some 62
  else if c = '/' then some 63
  else none

/-- Base64 rendering of a byte list, with `=` padding. -/
def b64EncodeBytes : List Nat → List Char
  | [] => []
  | [a] => [b64Char (a / 4), b64Char (a % 4 * 16), '=', '=']
  | [a, b] => [b64Char (a / 4), b64Char (a % 4 * 16 + b / 16), b64Char (b % 16 * 4), '=']
  | a :: b :: c :: rest =>
      b64Char (a / 4) :: b64Char (a % 4 * 16 + b / 16) :: b64Char (b % 16 * 4 + c / 64)
        :: b64Char (c % 64) :: b64EncodeBytes rest

/-- `btoa`: `none` embeds the `InvalidCharacterError` thrown on a character
above `U+00FF`. -/
def btoa (s : Str) : Option Str :=
  if s.all (fun c => c.toNat ≤ 255) then some (b64EncodeBytes (s.map Char.toNat))
  else none

/-- ASCII whitespace, stripped by forgiving-base64. -/
def isB64Ws (c : Char) : Bool :=
  c = ' ' || c = '\t' || c = '\n' || c = Char.ofNat 12 || c = Char.ofNat 13

/-- Remove one trailing `=`, if present. -/
def dropLastEq (l : List Char) : List Char :=
  match l.getLast? with
  | some '=' => l.dropLast
  | _ => l

/-- Decode a stripped sextet-character sequence into bytes. -/
def b64Quads : List Char → Option (List Nat)
  | [] => some []
  | [c1, c2] =>
      match b64Val c1, b64Val c2 with
      | some v1, some v2 => some [v1 * 4 + v2 / 16]
      | _, _ => none
  | [c1, c2, c3] =>
      match b64Val c1, b64Val c2, b64Val c3 with
      | some v1, some v2, some v3 => some [v1 * 4 + v2 / 16, v2 % 16 * 16 + v3 / 4]
      | _, _, _ => none
  | c1 :: c2 :: c3 :: c4 :: rest =>
      match b64Val c1, b64Val c2, b64Val c3, b64Val c4, b64Quads rest with
      | some v1, some v2, some v3, some v4, some bs =>
          some ((v1 * 4 + v2 / 16) :: (v2 % 16 * 16 + v3 / 4) :: (v3 % 4 * 64 + v4) :: bs)
      | _, _, _, _, _ => none
  | [_] => none

/-- `atob`: forgiving-base64 decode; `none` embeds the thrown
`InvalidCharacterError`. -/
def atob (s : Str) : Option Str :=
  let t := s.filter fun c => !isB64Ws c
  let t2 := if t.length % 4 = 0 then dropLastEq (dropLastEq t) else t
  match b64Quads t2 with
  | some bs => some (bs.map Char.ofNat)
  | none => none

/-! ## Round trip of base64 -/

theorem b64Val_b64Char (n : Nat) (h : n < 64) : b64Val (b64Char n) = some n := by
  have hfin : ∀ m : Fin 64, b64Val (b64Char m.val) = some m.val := by decide
  exact hfin ⟨n, h⟩

theorem b64Char_ne_pad (n : Nat) (h : n < 64) : b64Char n ≠ '=' := by
  have hfin : ∀ m : Fin 64, b64Char m.val ≠ '=' := by decide
  exact hfin ⟨n, h⟩

theorem b64Char_not_ws (n : Nat) (h : n < 64) : isB64Ws (b64Char n) = false := by
  have hfin : ∀ m : Fin 64, isB64Ws (b64Char m.val) = false := by decide
  exact hfin ⟨n, h⟩

theorem b64EncodeBytes_mod4 : ∀ bs : List Nat, (b64EncodeBytes bs).length % 4 = 0
  | [] => by simp [b64EncodeBytes]
  | [a] => by simp [b64EncodeBytes]
  | [a, b] => by simp [b64EncodeBytes]
  | a :: b :: c :: rest => by
      have ih := b64EncodeBytes_mod4 rest
      simp only [b64EncodeBytes, List.length_cons]
      omega

theorem b64EncodeBytes_no_ws : ∀ bs : List Nat, (∀ b ∈ bs, b < 256) →
    ∀ c ∈ b64EncodeBytes bs, isB64Ws c = false
  | [], _ => by simp [b64EncodeBytes]
  | [a], h => by
      have ha := h a (List.mem_cons_self a [])
      simp only [b64EncodeBytes, List.mem_cons, List.not_mem_nil, or_false]
      rintro c (rfl | rfl | rfl | rfl)
      · exact b64Char_not_ws _ (by omega)
      · exact b64Char_not_ws _ (by omega)
      · decide
      · decide
  | [a, b], h => by
      have ha := h a (by simp)
      have hb := h b (by simp)
      simp only [b64EncodeBytes, List.mem_cons, List.not_mem_nil, or_false]
      rintro c (rfl | rfl | rfl | rfl)
      · exact b64Char_not_ws _ (by omega)
      · exact b64Char_not_ws _ (by omega)
      · exact b64Char_not_ws _ (by omega)
      · decide
  | a :: b :: c :: rest, h => by
      have ha := h a (by simp)
      have hb := h b (by simp)
      have hc := h c (by simp)
      have ih := b64EncodeBytes_no_ws rest (fun x hx => h x (by simp [hx]))
      simp only [b64EncodeBytes, List.mem_cons]
      rintro d (rfl | rfl | rfl | rfl | hd)
      · exact b64Char_not_ws _ (by omega)
      · exact b64Char_not_ws _ (by omega)
      · exact b64Char_not_ws _ (by omega)
      · exact b64Char_not_ws _ (by omega)
      · exact ih d hd

theorem b64EncodeBytes_len_ge : ∀ bs : List Nat, bs ≠ [] → 4 ≤ (b64EncodeBytes bs).length
  | [], h => absurd rfl h
  | [a], _ => by simp [b64EncodeBytes]
  | [a, b], _ => by simp [b64EncodeBytes]
  | a :: b :: c :: rest, _ => by
      simp only [b64EncodeBytes, List.length_cons]
      omega

theorem dropLastEq_append_cons (x : List Char) (a : Char) (y : List Char) :
    dropLastEq (x ++ a :: y) = x ++ dropLastEq (a :: y) := by
  rw [dropLastEq, dropLastEq, List.getLast?_append_of_ne_nil x (List.cons_ne_nil a y)]
  split
  · rw [List.dropLast_append_cons]
  · rfl

theorem dropLastEq_append (x y : List Char) (hy : y ≠ []) :
    dropLastEq (x ++ y) = x ++ dropLastEq y := by
  match y with
  | [] => exact absurd rfl hy
  | a :: y2 => exact dropLastEq_append_cons x a y2

theorem dropLastEq_no_pad (l : List Char) (h : l.getLast? ≠ some '=') :
    dropLastEq l = l := by
  rw [dropLastEq]
  split
  · rename_i heq
    exact absurd heq h
  · rfl

theorem dropLastEq_len (l : List Char) : l.length - 1 ≤ (dropLastEq l).length := by
  rw [dropLastEq]
  split
  · rw [List.length_dropLast]
  · omega

theorem b64Quads_encode : ∀ bs : List Nat, (∀ b ∈ bs, b < 256) →
    b64Quads (dropLastEq (dropLastEq (b64EncodeBytes bs))) = some bs
  | [], _ => rfl
  | [a], h => by
      have ha := h a (by simp)
      have hstrip : dropLastEq (dropLastEq (b64EncodeBytes [a]))
          = [b64Char (a / 4), b64Char (a % 4 * 16)] := by
        rfl
      rw [hstrip]
      simp only [b64Quads, b64Val_b64Char (a / 4) (by omega),
        b64Val_b64Char (a % 4 * 16) (by omega), Option.some.injEq, List.cons.injEq,
        and_true]
      omega
  | [a, b], h => by
      have ha := h a (by simp)
      have hb := h b (by simp)
      have hstrip : dropLastEq (dropLastEq (b64EncodeBytes [a, b]))
          = [b64Char (a / 4), b64Char (a % 4 * 16 + b / 16), b64Char (b % 16 * 4)] := by
        have h1 : dropLastEq (b64EncodeBytes [a, b])
            = [b64Char (a / 4), b64Char (a % 4 * 16 + b / 16), b64Char (b % 16 * 4)] := rfl
        rw [h1, dropLastEq_no_pad]
        intro hlast
        simp only [List.getLast?] at hlast
        exact b64Char_ne_pad (b % 16 * 4) (by omega) (Option.some.inj hlast)
      rw [hstrip]
      simp only [b64Quads, b64Val_b64Char (a / 4) (by omega),
        b64Val_b64Char (a % 4 * 16 + b / 16) (by omega),
        b64Val_b64Char (b % 16 * 4) (by omega), Option.some.injEq, List.cons.injEq,
        and_true]
      omega
  | a :: b :: c :: rest, h => by
      have ha := h a (by simp)
      have hb := h b (by simp)
      have hc := h c (by simp)
      have ih := b64Quads_encode rest (fun x hx => h x (by simp [hx]))
      by_cases hrest : rest = []
      · subst hrest
        have hstrip : dropLastEq (dropLastEq (b64EncodeBytes [a, b, c]))
            = [b64Char (a / 4), b64Char (a % 4 * 16 + b / 16),
               b64Char (b % 16 * 4 + c / 64), b64Char (c % 64)] := by
          have hlast : (b64EncodeBytes [a, b, c]).getLast? = some (b64Char (c % 64)) := rfl
          have hno : (b64EncodeBytes [a, b, c]).getLast? ≠ some '=' := by
            rw [hlast]
            intro he
            exact b64Char_ne_pad (c % 64) (by omega) (Option.some.inj he)
          rw [dropLastEq_no_pad _ hno, dropLastEq_no_pad _ hno]
          rfl
        rw [hstrip]
        simp only [b64Quads, b64Val_b64Char (a / 4) (by omega),
          b64Val_b64Char (a % 4 * 16 + b / 16) (by omega),
          b64Val_b64Char (b % 16 * 4 + c / 64) (by omega),
          b64Val_b64Char (c % 64) (by omega), Option.some.injEq, List.cons.injEq,
          and_true]
        refine ⟨by omega, by omega, by omega⟩
      · have hne : b64EncodeBytes rest ≠ [] := by
          have hge := b64EncodeBytes_len_ge rest hrest
          intro he
          rw [he] at hge
          simp at hge
        have hne2 : dropLastEq (b64EncodeBytes rest) ≠ [] := by
          have hlen := dropLastEq_len (b64EncodeBytes rest)
          have hge := b64EncodeBytes_len_ge rest hrest
          intro he
          rw [he, List.length_nil] at hlen
          omega
        have hstrip : dropLastEq (dropLastEq (b64EncodeBytes (a :: b :: c :: rest)))
            = b64Char (a / 4) :: b64Char (a % 4 * 16 + b / 16)
              :: b64Char (b % 16 * 4 + c / 64) :: b64Char (c % 64)
              :: dropLastEq (dropLastEq (b64EncodeBytes rest)) := by
          rw [show b64EncodeBytes (a :: b :: c :: rest)
              = [b64Char (a / 4), b64Char (a % 4 * 16 + b / 16),
                 b64Char (b % 16 * 4 + c / 64), b64Char (c % 64)]
                ++ b64EncodeBytes rest from rfl]
          rw [dropLastEq_append _ _ hne, dropLastEq_append _ _ hne2]
          rfl
        rw [hstrip]
        simp only [b64Quads, b64Val_b64Char (a / 4) (by omega),
          b64Val_b64Char (a % 4 * 16 + b / 16) (by omega),
          b64Val_b64Char (b % 16 * 4 + c / 64) (by omega),
          b64Val_b64Char (c % 64) (by omega), ih, Option.some.injEq, List.cons.injEq,
          and_true]
        refine ⟨by omega, by omega, by omega⟩

/-- `atob` inverts `btoa` on every latin-1 input. -/
theorem atob_btoa (s : Str) (h : ∀ c ∈ s, c.toNat ≤ 255) :
    btoa s = some (b64EncodeBytes (s.map Char.toNat))
      ∧ atob (b64EncodeBytes (s.map Char.toNat)) = some s := by
  have hall : s.all (fun c => c.toNat ≤ 255) = true := by
    rw [List.all_eq_true]
    intro c hc
    simpa using h c hc
  have hbytes : ∀ b ∈ s.map Char.toNat, b < 256 := by
    intro b hb
    rw [List.mem_map] at hb
    obtain ⟨c, hc, rfl⟩ := hb
    have := h c hc
    omega
  have hfilter : (b64EncodeBytes (s.map Char.toNat)).filter (fun c => !isB64Ws c)
      = b64EncodeBytes (s.map Char.toNat) := by
    rw [List.filter_eq_self]
    intro c hc
    rw [Bool.not_eq_true']
    exact b64EncodeBytes_no_ws _ hbytes c hc
  refine ⟨by rw [btoa, if_pos hall], ?_⟩
  have hq := b64Quads_encode (s.map Char.toNat) hbytes
  simp only [atob, hfilter]
  rw [if_pos (b64EncodeBytes_mod4 (s.map Char.toNat)), hq]
  simp only [List.map_map, Option.some.injEq]
  have hcomp : ∀ c ∈ s, (Char.ofNat ∘ Char.toNat) c = c := fun c _ => Char.ofNat_toNat c
  rw [List.map_congr_left hcomp]
  exact List.map_id' s

/-! ## Browser storage

`sessionStorage` and `localStorage` as association lists from key strings to
value strings, with JavaScript semantics: `setItem` overwrites in place or
appends, `getItem` is lookup, `removeItem` filters.  `broken` lists the keys
whose `setItem` throws (the environmental quota-exceeded failure); such a
write returns `none` and the calling function's `catch` turns it into `false`. -/

structure Storage where
  sess : List (Str × Str)
  loc : List (Str × Str)
  broken : List Str
deriving DecidableEq

def lookupPairs (k : Str) : List (Str × Str) → Option Str
  | [] => none
  | (k2, v) :: rest => if k2 = k then some v else lookupPairs k rest

def setPairs (k v : Str) : List (Str × Str) → List (Str × Str)
  | [] => [(k, v)]
  | (k2, v2) :: rest => if k2 = k then (k, v) :: rest else (k2, v2) :: setPairs k v rest

/-- `sessionStorage.getItem(k)`. -/
def sessGet (k : Str) (σ : Storage) : Option Str := lookupPairs k σ.sess

/-- `localStorage.getItem(k)`. -/
def locGet (k : Str) (σ : Storage) : Option Str := lookupPairs k σ.loc

/-- `sessionStorage.setItem(k, v)`; `none` embeds the quota throw. -/
def sessSet (k v : Str) (σ : Storage) : Option Storage :=
  if k ∈ σ.broken then none else some { σ with sess := setPairs k v σ.sess }

/-- `localStorage.setItem(k, v)`; `none` embeds the quota throw. -/
def locSet (k v : Str) (σ : Storage) : Option Storage :=
  if k ∈ σ.broken then none else some { σ with loc := setPairs k v σ.loc }

/-- `sessionStorage.removeItem(k)` (does not throw). -/
def sessRemove (k : Str) (σ : Storage) : Storage :=
  { σ with sess := σ.sess.filter fun kv => decide (kv.1 ≠ k) }

/-- JavaScript `includes`: `sub` occurs contiguously in `s`. -/
def strContains (s sub : Str) : Bool :=
  match s with
  | [] => sub.isEmpty
  | _ :: t => sub.isPrefixOf s || strContains t sub

/-! ## Trip-scoped session storage (part_003)

The translated functions.  Runtime values flowing through storage are `Json`
(TypeScript's annotations are erased), so the writers take `Json` and the
readers return the unvalidated `JSON.parse` image. -/

/-- String coercion of a value interpolated into a template literal.
Composite values never reach such a position in this module; they are mapped
to fixed markers rather than modelling the full `toString` protocol. -/
def jsValToStr : Option Json → Str
  | some (.jstr s) => s
  | some (.jnum n) => intDecimal n
  | some (.jbool true) => chars "true"
  | some (.jbool false) => chars "false"
  | some .jnull => chars "null"
  | none => chars "undefined"
  | some (.jarr _) => chars "[array]"
  | some (.jobj _) => chars "[object Object]"

/-- 32-bit signed truncation, the effect of JavaScript's bitwise operators. -/
def toInt32 (n : Int) : Int := (n + 2147483648) % 4294967296 - 2147483648

/-- One step of the hash loop: `hash = ((hash << 5) - hash) + char` followed
by `hash = hash & hash` (truncation to 32 bits; the shift also truncates). -/
def hashStep (h : Int) (c : Nat) : Int := toInt32 (toInt32 (h * 32) - h + c)

/-- `generateTripId`: the hash of `` `${fromPlaceId}-${toPlaceId}` `` behind a
`trip_` namespace.  `charCodeAt` reads UTF-16 units; in this scalar-value
model the two coincide on the Basic Multilingual Plane. -/
def generateTripId (fromPlaceId toPlaceId : Str) : Str :=
  let combinedString := fromPlaceId ++ '-' :: toPlaceId
  let hash := combinedString.foldl (fun h c => hashStep h c.toNat) 0
  chars "trip_" ++ natDecimal hash.natAbs

/-- `getTripStorageKey`. -/
def getTripStorageKey (tripId dataType : Str) : Str :=
  chars "trip_" ++ tripId ++ '_' :: dataType

/-- `storeTripData`.  The argument is `none` when the caller read the record
off a snapshot that lacks it (`undefined`): the property accesses then throw
inside this function, whose `catch` returns `false` before any write. -/
def storeTripData (tripData : Option Json) (σ : Storage) : Bool × Storage :=
  match tripData with
  | none => (false, σ)
  | some td =>
      let tripId := generateTripId (jsValToStr (jsonGet td (chars "fromPlaceId")))
        (jsValToStr (jsonGet td (chars "toPlaceId")))
      let dataWithTripId := jsonSetField td (chars "tripId") (.jstr tripId)
      let storageKey := getTripStorageKey tripId (chars "data")
      match sessSet storageKey (jPrint dataWithTripId) σ with
      | none => (false, σ)
      | some σ1 =>
          match sessSet (chars "currentTripId") tripId σ1 with
          | none => (false, σ1)
          | some σ2 => (true, σ2)

/-- `getCurrentTripData`. -/
def getCurrentTripData (σ : Storage) : Option Json :=
  match sessGet (chars "currentTripId") σ with
  | none => none
  | some currentTripId =>
      if currentTripId.isEmpty then none
      else
        match sessGet (getTripStorageKey currentTripId (chars "data")) σ with
        | none => none
        | some stored => parseJson stored

/-- `storeRouteData`. -/
def storeRouteData (routeData : Json) (σ : Storage) : Bool × Storage :=
  match sessGet (chars "currentTripId") σ with
  | none => (false, σ)
  | some currentTripId =>
      if currentTripId.isEmpty then (false, σ)
      else
        match sessSet (getTripStorageKey currentTripId (chars "route"))
            (jPrint routeData) σ with
        | none => (false, σ)
        | some σ1 => (true, σ1)

/-- `getCurrentRouteData`. -/
def getCurrentRouteData (σ : Storage) : Option Json :=
  match sessGet (chars "currentTripId") σ with
  | none => none
  | some currentTripId =>
      if currentTripId.isEmpty then none
      else
        match sessGet (getTripStorageKey currentTripId (chars "route")) σ with
        | none => none
        | some stored => parseJson stored

/-- `storePlacesData`. -/
def storePlacesData (placesData : Json) (σ : Storage) : Bool × Storage :=
  match sessGet (chars "currentTripId") σ with
  | none => (false, σ)
  | some currentTripId =>
      if currentTripId.isEmpty then (false, σ)
      else
        match sessSet (getTripStorageKey currentTripId (chars "places"))
            (jPrint placesData) σ with
        | none => (false, σ)
        | some σ1 => (true, σ1)

/-- `getCurrentPlacesData`. -/
def getCurrentPlacesData (σ : Storage) : Option Json :=
  match sessGet (chars "currentTripId") σ with
  | none => none
  | some currentTripId =>
      if currentTripId.isEmpty then none
      else
        match sessGet (getTripStorageKey currentTripId (chars "places")) σ with
        | none => none
        | some stored => parseJson stored

/-- `updateTripData`. -/
def updateTripData (updatedTripData : Json) (σ : Storage) : Bool × Storage :=
  match sessGet (chars "currentTripId") σ with
  | none => (false, σ)
  | some currentTripId =>
      if currentTripId.isEmpty then (false, σ)
      else
        let dataWithTripId := jsonSetField updatedTripData (chars "tripId")
          (.jstr currentTripId)
        match sessSet (getTripStorageKey currentTripId (chars "data"))
            (jPrint dataWithTripId) σ with
        | none => (false, σ)
        | some σ1 => (true, σ1)

/-- One step of the legacy-key cleanup: `removeItem` guarded by the truthiness
of `getItem`. -/
def removeLegacy (k : Str) (σ : Storage) : Storage :=
  match sessGet k σ with
  | some v => if v.isEmpty then σ else sessRemove k σ
  | none => σ

/-- `cleanupOldTripData`: removes every `trip_`-prefixed key that does not
contain the current trip id as a substring, then the three legacy keys; a
falsy `currentTripId` disables both passes. -/
def cleanupOldTripData (σ : Storage) : Storage :=
  match sessGet (chars "currentTripId") σ with
  | none => σ
  | some currentTripId =>
      if currentTripId.isEmpty then σ
      else
        let σ1 := { σ with sess := σ.sess.filter fun kv =>
          !((chars "trip_").isPrefixOf kv.1 && !strContains kv.1 currentTripId) }
        removeLegacy (chars "placesData")
          (removeLegacy (chars "routeData") (removeLegacy (chars "tripData") σ1))

/-! ## Saved-trip registry (part_003, `localStorage`) -/

/-- `getSavedTrips`: the parsed `savedTrips` cell; an absent or falsy cell and
a caught `SyntaxError` both give `[]`. -/
def getSavedTrips (σ : Storage) : Json :=
  match locGet (chars "savedTrips") σ with
  | none => .jarr []
  | some stored =>
      if stored.isEmpty then .jarr []
      else
        match parseJson stored with
        | some j => j
        | none => .jarr []

/-- `getSavedTrip`: `find(trip => trip.id === tripId) || null`; a non-array
cell makes `.find` throw, caught as `null`. -/
def getSavedTrip (tripId : Str) (σ : Storage) : Option Json :=
  match getSavedTrips σ with
  | .jarr l =>
      match l.find? (fun t => jsEqStr (jsonGet t (chars "id")) tripId) with
      | some v => if jsFalsy v then none else some v
      | none => none
  | _ => none

/-- `deleteSavedTrip`: filter out the id and write back; always `true` unless
the write (or the `.filter` on a non-array cell) throws. -/
def deleteSavedTrip (tripId : Str) (σ : Storage) : Bool × Storage :=
  match getSavedTrips σ with
  | .jarr l =>
      let updatedTrips := l.filter fun t => !jsEqStr (jsonGet t (chars "id")) tripId
      match locSet (chars "savedTrips") (jPrint (.jarr updatedTrips)) σ with
      | some σ1 => (true, σ1)
      | none => (false, σ)
  | _ => (false, σ)

/-- `x || undefined` on an optional runtime value. -/
def orUndefined (v : Option Json) : Option Json :=
  match v with
  | some j => if jsFalsy j then none else some j
  | none => none

/-- The replacement snapshot object built by `updateSavedTrip`: same `id`,
new `name`/`description`, the original `savedAt`, and the current session's
trip, route and places data; `undefined` members are omitted by
`JSON.stringify`, hence the optional fields. -/
def mkUpdatedSavedTrip (tripId tripName : Str) (description : Option Str)
    (savedAt : Option Json) (tripData : Json) (routeData placesData : Option Json) : Json :=
  .jobj ([(chars "id", .jstr tripId), (chars "name", .jstr tripName)]
    ++ (match description with
        | some d => [(chars "description", Json.jstr d)]
        | none => [])
    ++ (match savedAt with
        | some sv => [(chars "savedAt", sv)]
        | none => [])
    ++ [(chars "tripData", tripData)]
    ++ (match routeData with
        | some r => [(chars "routeData", r)]
        | none => [])
    ++ (match placesData with
        | some p => [(chars "placesData", p)]
        | none => []))

/-- `updateSavedTrip`. -/
def updateSavedTrip (tripId tripName : Str) (description : Option Str)
    (σ : Storage) : Bool × Storage :=
  let tripData := getCurrentTripData σ
  let routeData := getCurrentRouteData σ
  let placesData := getCurrentPlacesData σ
  match tripData with
  | none => (false, σ)
  | some td =>
      if jsFalsy td then (false, σ)
      else
        match getSavedTrips σ with
        | .jarr l =>
            match l.findIdx? (fun t => jsEqStr (jsonGet t (chars "id")) tripId) with
            | none => (false, σ)
            | some i =>
                let updatedTrip := mkUpdatedSavedTrip tripId tripName description
                  (jsonGet (l.getD i .jnull) (chars "savedAt")) td
                  (orUndefined routeData) (orUndefined placesData)
                match locSet (chars "savedTrips")
                    (jPrint (.jarr (l.set i updatedTrip))) σ with
                | some σ1 => (true, σ1)
                | none => (false, σ)
        | _ => (false, σ)

/-- The route step of `loadSavedTrip`: the truthiness-guarded
`storeRouteData` call whose boolean result the source discards. -/
def loadRouteStage (savedTrip : Json) (σ : Storage) : Storage :=
  match jsonGet savedTrip (chars "routeData") with
  | some rd => if jsFalsy rd then σ else (storeRouteData rd σ).2
  | none => σ

/-- The places step of `loadSavedTrip`, likewise with a discarded result. -/
def loadPlacesStage (savedTrip : Json) (σ : Storage) : Storage :=
  match jsonGet savedTrip (chars "placesData") with
  | some pd => if jsFalsy pd then σ else (storePlacesData pd σ).2
  | none => σ

/-- `loadSavedTrip`: install a snapshot as the active trip; the boolean
results of the route and places writes are discarded. -/
def loadSavedTrip (tripId : Str) (σ : Storage) : Bool × Storage :=
  match getSavedTrip tripId σ with
  | none => (false, σ)
  | some savedTrip =>
      match storeTripData (jsonGet savedTrip (chars "tripData")) σ with
      | (false, σ1) => (false, σ1)
      | (true, σ1) => (true, loadPlacesStage savedTrip (loadRouteStage savedTrip σ1))

/-! ## Trip sharing (part_003, URL compression) -/

/-- The serialization `compressTripData` performs on the gathered
`{tripData, routeData?, placesData?}`: `JSON.stringify`, then
`encodeURIComponent`, then `btoa`. -/
def compressGathered (tripData : Json) (routeData placesData : Option Json) : Option Str :=
  let shareableTrip := Json.jobj ([(chars "tripData", tripData)]
    ++ (match routeData with
        | some r => [(chars "routeData", r)]
        | none => [])
    ++ (match placesData with
        | some p => [(chars "placesData", p)]
        | none => []))
  let jsonString := jPrint shareableTrip
  btoa (encodeURIComponent jsonString)

/-- `compressTripData`. -/
def compressTripData (σ : Storage) : Option Str :=
  match getCurrentTripData σ with
  | none => none
  | some td =>
      if jsFalsy td then none
      else compressGathered td (orUndefined (getCurrentRouteData σ))
        (orUndefined (getCurrentPlacesData σ))

/-- `decompressTripData`: `atob`, `decodeURIComponent`, `JSON.parse`; any
layer's throw is caught and returned as `null`. -/
def decompressTripData (compressedData : Str) : Option Json :=
  match atob compressedData with
  | none => none
  | some decoded =>
      match decodeURIComponent decoded with
      | none => none
      | some jsonString => parseJson jsonString

/-! ## The map component's trip places (part_002)

The interfaces of the map component, and the add-to-trip interaction: the
marker popup renders its button disabled (with no click handler) when
`isPlaceInTrip` holds, otherwise `handleButtonClick` appends the place (with
an `addedAt` stamp) to the trip's places; in the single-threaded execution
model the popup's guard and the handler's read-modify-write see the same
state, so the interaction is the guarded append below. -/

structure DisplayName where
  text : Str
deriving DecidableEq

structure PlaceLocation where
  latitude : Int
  longitude : Int
deriving DecidableEq

/-- part_002's `TripPlace` (also part_003's). -/
structure TripPlaceR where
  displayName : DisplayName
  formattedAddress : Str
  location : Option PlaceLocation
  category : Option Str
  addedAt : Str
deriving DecidableEq

/-- A place as handed to the popup: no `addedAt` yet. -/
structure SearchPlace where
  displayName : DisplayName
  formattedAddress : Str
  location : Option PlaceLocation
  category : Option Str
deriving DecidableEq

/-- part_002's `TripData`. -/
structure UiTripData where
  startingLocation : Option Str
  destination : Option Str
  places : List TripPlaceR
deriving DecidableEq

/-- `isPlaceInTrip`: membership by the `(displayName.text, formattedAddress)`
pair. -/
def isPlaceInTrip (place : SearchPlace) (tripData : UiTripData) : Bool :=
  tripData.places.any fun tripPlace =>
    decide (tripPlace.displayName.text = place.displayName.text) &&
      decide (tripPlace.formattedAddress = place.formattedAddress)

/-- `{...place, addedAt}` of `handleButtonClick`. -/
def mkTripPlace (place : SearchPlace) (addedAt : Str) : TripPlaceR :=
  { displayName := place.displayName
    formattedAddress := place.formattedAddress
    location := place.location
    category := place.category
    addedAt := addedAt }

/-- `handleButtonClick`'s read-modify-write on a matching click target: read
the trip data afresh, append `{...place, addedAt}` and save — no duplicate
check happens here.  The model is at the value level on the successful-save
path; a failed save appends nothing and the handler only restyles the
button. -/
def handleButtonClick (place : SearchPlace) (addedAt : Str) (tripData : UiTripData) :
    UiTripData :=
  { tripData with places := tripData.places ++ [mkTripPlace place addedAt] }

/-- A marker click opens the popup: the guard reads the trip data at that
moment and registers one more document-level `handleButtonClick` listener
only when the place is not yet in the trip; when it is, the button renders
disabled and nothing is registered.  The natural number is how many
listeners are currently registered for this place's button (the button id is
derived from the place, so every popup of the place shares it). -/
def markerClick (place : SearchPlace) (tripData : UiTripData) (listeners : Nat) : Nat :=
  if isPlaceInTrip place tripData then listeners else listeners + 1

/-- One click on the add button fires every registered listener in turn:
the handler calls `stopPropagation`, which does not stop the other
document-level listeners, and removes only itself, so each registered
listener appends once.  `stamps` carries one `addedAt` timestamp per firing
listener. -/
def fireButtonClick (place : SearchPlace) (stamps : List Str)
    (tripData : UiTripData) : UiTripData :=
  match stamps with
  | [] => tripData
  | t :: rest => fireButtonClick place rest (handleButtonClick place t tripData)

/-- Entries of a places sequence matching a place's uniqueness pair. -/
def countMatchingPlaces (place : SearchPlace) (l : List TripPlaceR) : Nat :=
  l.countP fun tripPlace =>
    decide (tripPlace.displayName.text = place.displayName.text) &&
      decide (tripPlace.formattedAddress = place.formattedAddress)

/-! ## The TypeScript interfaces as structures

`TripData`, `RouteData` and `ShareableTrip` of part_003, with their runtime
(`Json`) images.  Optional interface members absent at runtime are omitted
from the object, as `JSON.stringify` omits `undefined` properties; `tripId`
is placed after the other members, matching the position `{...tripData,
tripId}` gives it when the incoming record lacks one. -/

/-- part_003's `TripData` (`from`/`to` are Lean keywords, hence
`fromName`/`toName`). -/
structure TripDataR where
  fromName : Str
  toName : Str
  fromPlaceId : Str
  toPlaceId : Str
  places : Option (List TripPlaceR)
  tripId : Option Str
deriving DecidableEq

def placeLocationToJson (l : PlaceLocation) : Json :=
  .jobj [(chars "latitude", .jnum l.latitude), (chars "longitude", .jnum l.longitude)]

def tripPlaceToJson (p : TripPlaceR) : Json :=
  .jobj ([(chars "displayName", Json.jobj [(chars "text", Json.jstr p.displayName.text)]),
    (chars "formattedAddress", Json.jstr p.formattedAddress)]
    ++ (match p.location with
        | some l => [(chars "location", placeLocationToJson l)]
        | none => [])
    ++ (match p.category with
        | some c => [(chars "category", Json.jstr c)]
        | none => [])
    ++ [(chars "addedAt", Json.jstr p.addedAt)])

def tripDataToJson (td : TripDataR) : Json :=
  .jobj ([(chars "from", Json.jstr td.fromName), (chars "to", Json.jstr td.toName),
    (chars "fromPlaceId", Json.jstr td.fromPlaceId),
    (chars "toPlaceId", Json.jstr td.toPlaceId)]
    ++ (match td.places with
        | some ps => [(chars "places", Json.jarr (ps.map tripPlaceToJson))]
        | none => [])
    ++ (match td.tripId with
        | some t => [(chars "tripId", Json.jstr t)]
        | none => []))

structure RoutePolyline where
  encodedPolyline : Str
deriving DecidableEq

structure Waypoint where
  lat : Int
  lng : Int
deriving DecidableEq

/-- part_003's `RouteData`. -/
structure RouteDataR where
  distanceMeters : Int
  duration : Str
  polyline : RoutePolyline
  waypoints : Option (List Waypoint)
  timestamp : Str
deriving DecidableEq

def waypointToJson (w : Waypoint) : Json :=
  .jobj [(chars "location", Json.jobj [(chars "lat", Json.jnum w.lat),
    (chars "lng", Json.jnum w.lng)])]

def routeDataToJson (rd : RouteDataR) : Json :=
  .jobj ([(chars "distanceMeters", Json.jnum rd.distanceMeters),
    (chars "duration", Json.jstr rd.duration),
    (chars "polyline", Json.jobj [(chars "encodedPolyline",
      Json.jstr rd.polyline.encodedPolyline)])]
    ++ (match rd.waypoints with
        | some ws => [(chars "waypoints", Json.jarr (ws.map waypointToJson))]
        | none => [])
    ++ [(chars "timestamp", Json.jstr rd.timestamp)])

/-- part_003's `ShareableTrip` (`placesData: any[]` stays a raw `Json` list). -/
structure ShareableTripR where
  tripData : TripDataR
  routeData : Option RouteDataR
  placesData : Option (List Json)

/-- The runtime object `compressTripData` builds from a gathered snapshot. -/
def shareableTripToJson (st : ShareableTripR) : Json :=
  .jobj ([(chars "tripData", tripDataToJson st.tripData)]
    ++ (match st.routeData with
        | some r => [(chars "routeData", routeDataToJson r)]
        | none => [])
    ++ (match st.placesData with
        | some p => [(chars "placesData", Json.jarr p)]
        | none => []))

/-! ## The runtime images are faithful: the `…ToJson` maps are injective

Decoding to a runtime value that is the image of exactly one record is what
"field-for-field equal to the original" means for the round-trip claims. -/

theorem placeLocationToJson_inj : Function.Injective placeLocationToJson := by
  intro a b h
  obtain ⟨ax, ay⟩ := a
  obtain ⟨bx, by2⟩ := b
  simp_all [placeLocationToJson]

theorem tripPlaceToJson_inj : Function.Injective tripPlaceToJson := by
  intro p q h
  obtain ⟨⟨pt⟩, pf, pl, pc, pa⟩ := p
  obtain ⟨⟨qt⟩, qf, ql, qc, qa⟩ := q
  rcases pl with _ | ⟨plat, plng⟩ <;> rcases ql with _ | ⟨qlat, qlng⟩ <;>
    cases pc <;> cases qc <;>
    simp_all [tripPlaceToJson, placeLocationToJson]

theorem tripDataToJson_inj : Function.Injective tripDataToJson := by
  intro a b h
  obtain ⟨af, at2, afp, atp, apl, ati⟩ := a
  obtain ⟨bf, bt, bfp, btp, bpl, bti⟩ := b
  cases apl <;> cases bpl <;> cases ati <;> cases bti <;>
    simp_all [tripDataToJson, List.map_inj_left] <;>
    (try exact List.map_injective_iff.mpr tripPlaceToJson_inj (by simp_all))

theorem waypointToJson_inj : Function.Injective waypointToJson := by
  intro a b h
  obtain ⟨ax, ay⟩ := a
  obtain ⟨bx, by2⟩ := b
  simp_all [waypointToJson]

theorem routeDataToJson_inj : Function.Injective routeDataToJson := by
  intro a b h
  obtain ⟨ad, au, ⟨ap⟩, aw, ats⟩ := a
  obtain ⟨bd, bu, ⟨bp⟩, bw, bts⟩ := b
  cases aw <;> cases bw <;>
    (simp_all [routeDataToJson];
     try exact List.map_injective_iff.mpr waypointToJson_inj (by simp_all))

theorem shareableTripToJson_inj : ∀ {a b : ShareableTripR},
    shareableTripToJson a = shareableTripToJson b → a = b := by
  intro a b h
  obtain ⟨atd, ard, apd⟩ := a
  obtain ⟨btd, brd, bpd⟩ := b
  have hk : chars "routeData" ≠ chars "placesData" := by decide
  rcases ard with _ | ar <;> rcases brd with _ | br <;>
    rcases apd with _ | ap2 <;> rcases bpd with _ | bp2 <;>
    simp_all [shareableTripToJson]
  · exact tripDataToJson_inj h
  · exact tripDataToJson_inj h.1
  · exact ⟨tripDataToJson_inj h.1, routeDataToJson_inj h.2⟩
  · exact ⟨tripDataToJson_inj h.1, routeDataToJson_inj h.2.1⟩

/-! ## Storage lemmas -/

theorem lookupPairs_setPairs_self (k v : Str) :
    ∀ l : List (Str × Str), lookupPairs k (setPairs k v l) = some v
  | [] => by simp [setPairs, lookupPairs]
  | (k2, v2) :: rest => by
      by_cases h : k2 = k
      · subst h
        simp [setPairs, lookupPairs]
      · simp [setPairs, lookupPairs, h, lookupPairs_setPairs_self k v rest]

theorem lookupPairs_setPairs_ne (k k2 v : Str) (h : k2 ≠ k) :
    ∀ l : List (Str × Str), lookupPairs k2 (setPairs k v l) = lookupPairs k2 l
  | [] => by
      have hne : ¬(k = k2) := fun e => h e.symm
      simp [setPairs, lookupPairs, hne]
  | (k3, v3) :: rest => by
      by_cases h3 : k3 = k
      · subst h3
        have hne : ¬(k3 = k2) := fun e => h e.symm
        simp [setPairs, lookupPairs, hne]
      · simp only [setPairs, if_neg h3, lookupPairs]
        by_cases h2 : k3 = k2
        · simp [h2]
        · simp [h2, lookupPairs_setPairs_ne k k2 v h rest]

theorem setPairs_setPairs_self (k v v2 : Str) :
    ∀ l : List (Str × Str), setPairs k v2 (setPairs k v l) = setPairs k v2 l
  | [] => by simp [setPairs]
  | (k3, v3) :: rest => by
      by_cases h3 : k3 = k
      · subst h3
        simp [setPairs]
      · simp [setPairs, h3, setPairs_setPairs_self k v v2 rest]

theorem lookupPairs_keyFilter (P : Str → Bool) (k : Str) :
    ∀ l : List (Str × Str),
      lookupPairs k (l.filter fun kv => P kv.1) = if P k then lookupPairs k l else none
  | [] => by cases hP : P k <;> simp [lookupPairs, hP]
  | (k2, v) :: rest => by
      by_cases hk : k2 = k
      · subst hk
        cases hP : P k2 <;>
          simp [List.filter_cons, hP, lookupPairs, lookupPairs_keyFilter P k2 rest]
      · cases hP : P k2 <;>
          simp [List.filter_cons, hP, lookupPairs, hk, lookupPairs_keyFilter P k rest]

theorem natDecimal_inj {m n : Nat} (h : natDecimal m = natDecimal n) : m = n := by
  have hm := digitsVal_digitsSpec m
  have hn := digitsVal_digitsSpec n
  rw [← natDecimal_spec] at hm hn
  rw [← hm, ← hn, h]

/-- A generated trip id is never the falsy empty string. -/
theorem generateTripId_not_empty (a b : Str) : (generateTripId a b).isEmpty = false := rfl

/-- A trip-scoped storage key never collides with the `currentTripId`
pointer (their first characters differ). -/
theorem tripKey_ne_currentTripId (a b : Str) :
    getTripStorageKey a b ≠ chars "currentTripId" := by
  intro h
  have h1 : (getTripStorageKey a b).head? = some 't' := rfl
  rw [h] at h1
  exact absurd h1 (by decide)

/-- Two storage keys for the same trip id and different data types differ. -/
theorem tripKey_ne_of_dataType {cid x y : Str} (h : x ≠ y) :
    getTripStorageKey cid x ≠ getTripStorageKey cid y := by
  intro he
  rw [getTripStorageKey, getTripStorageKey] at he
  have h1 := List.append_cancel_left he
  injection h1 with h3 h4
  exact h h4

/-! ## Behaviour of the store operations -/

/-- The trip id `storeTripData` computes from its argument's place ids. -/
def storedTripId (td : Json) : Str :=
  generateTripId (jsValToStr (jsonGet td (chars "fromPlaceId")))
    (jsValToStr (jsonGet td (chars "toPlaceId")))

theorem jsonGet_tripData_fromPlaceId (td : TripDataR) :
    jsonGet (tripDataToJson td) (chars "fromPlaceId") = some (.jstr td.fromPlaceId) := by
  have h1 : ¬(chars "from" = chars "fromPlaceId") := by decide
  have h2 : ¬(chars "to" = chars "fromPlaceId") := by decide
  simp [tripDataToJson, jsonGet, jsonGet.fieldLookup, h1, h2]

theorem jsonGet_tripData_toPlaceId (td : TripDataR) :
    jsonGet (tripDataToJson td) (chars "toPlaceId") = some (.jstr td.toPlaceId) := by
  have h1 : ¬(chars "from" = chars "toPlaceId") := by decide
  have h2 : ¬(chars "to" = chars "toPlaceId") := by decide
  have h3 : ¬(chars "fromPlaceId" = chars "toPlaceId") := by decide
  simp [tripDataToJson, jsonGet, jsonGet.fieldLookup, h1, h2, h3]

theorem storedTripId_tripData (td : TripDataR) :
    storedTripId (tripDataToJson td) = generateTripId td.fromPlaceId td.toPlaceId := by
  rw [storedTripId, jsonGet_tripData_fromPlaceId, jsonGet_tripData_toPlaceId]
  rfl

/-- `{...tripData, tripId}` on a typed record's image is the image of the
record with its `tripId` replaced. -/
theorem jsonSetField_tripData (td : TripDataR) (v : Str) :
    jsonSetField (tripDataToJson td) (chars "tripId") (.jstr v)
      = tripDataToJson { td with tripId := some v } := by
  have h1 : ¬(chars "from" = chars "tripId") := by decide
  have h2 : ¬(chars "to" = chars "tripId") := by decide
  have h3 : ¬(chars "fromPlaceId" = chars "tripId") := by decide
  have h4 : ¬(chars "toPlaceId" = chars "tripId") := by decide
  have h5 : ¬(chars "places" = chars "tripId") := by decide
  obtain ⟨f, t, fp, tp, pl, ti⟩ := td
  cases pl <;> cases ti <;>
    simp [tripDataToJson, jsonSetField, jsonSetField.setFields, h1, h2, h3, h4, h5]

/-- The successful path of `storeTripData`: both writes land, the record is
stored (with its `tripId` overwritten) under the scoped key, and the pointer
is updated; nothing else changes. -/
theorem storeTripData_spec (td : Json) (σ : Storage)
    (hd : getTripStorageKey (storedTripId td) (chars "data") ∉ σ.broken)
    (hc : chars "currentTripId" ∉ σ.broken) :
    storeTripData (some td) σ
      = (true, { σ with sess := (setPairs (chars "currentTripId") (storedTripId td)
          (setPairs (getTripStorageKey (storedTripId td) (chars "data"))
            (jPrint (jsonSetField td (chars "tripId") (.jstr (storedTripId td))))
            σ.sess)) }) := by
  have hd2 := hd
  simp only [storedTripId] at hd2
  simp [storeTripData, sessSet, storedTripId, hd2, hc]

theorem getCurrentTripData_after_store (td : Json) (σ : Storage)
    (hd : getTripStorageKey (storedTripId td) (chars "data") ∉ σ.broken)
    (hc : chars "currentTripId" ∉ σ.broken) :
    getCurrentTripData (storeTripData (some td) σ).2
      = some (jsonSetField td (chars "tripId") (.jstr (storedTripId td))) := by
  rw [storeTripData_spec td σ hd hc, getCurrentTripData]
  simp only [sessGet, lookupPairs_setPairs_self]
  rw [show (storedTripId td).isEmpty = false from rfl]
  simp only [Bool.false_eq_true, if_false]
  rw [lookupPairs_setPairs_ne _ _ _ (tripKey_ne_currentTripId _ _),
    lookupPairs_setPairs_self]
  simp only [parseJson_jPrint]

/-! # The claims -/

/-! ## C3: order sensitivity of the trip identity -/

/-- C3 counterexample: the claim "computeIdentity(a,b) ≠ computeIdentity(b,a)
whenever a ≠ b" fails at a = "Aa", b = "BB": the 32-bit hashes of "Aa-BB" and
"BB-Aa" collide, so `generateTripId` yields the same identity for the swapped
pair of distinct references. -/
theorem c3_identity_collision_counterexample :
    chars "Aa" ≠ chars "BB"
      ∧ generateTripId (chars "Aa") (chars "BB") = generateTripId (chars "BB") (chars "Aa") :=
  ⟨by decide, by decide⟩

/-- C3 (amended): swapping the two place references yields a different
identity exactly when the 32-bit hash magnitudes of the two concatenations
differ; order sensitivity holds for some pairs (e.g. "a", "b") but fails on
hash collisions (e.g. "Aa", "BB"). -/
theorem c3_identity_order_sensitivity :
    (∀ a b : Str,
       generateTripId a b = generateTripId b a
         ↔ ((a ++ '-' :: b).foldl (fun h c => hashStep h c.toNat) 0).natAbs
             = ((b ++ '-' :: a).foldl (fun h c => hashStep h c.toNat) 0).natAbs)
  ∧ (∃ a b : Str, a ≠ b ∧ generateTripId a b ≠ generateTripId b a)
  ∧ (∃ a b : Str, a ≠ b ∧ generateTripId a b = generateTripId b a) := by
  refine ⟨?_, ⟨chars "a", chars "b", by decide, by decide⟩,
    ⟨chars "Aa", chars "BB", by decide, by decide⟩⟩
  intro a b
  constructor
  · intro h
    simp only [generateTripId] at h
    exact natDecimal_inj (List.append_cancel_left h)
  · intro h
    simp only [generateTripId, h]

/-- C3 witness: the amended characterization applied at the colliding pair. -/
theorem c3_identity_witness :
    generateTripId (chars "Aa") (chars "BB") = generateTripId (chars "BB") (chars "Aa") :=
  (c3_identity_order_sensitivity.1 (chars "Aa") (chars "BB")).mpr (by decide)

/-! ## C9: decode is total on malformed input -/

/-- C9: `decompressTripData` never lets an exception past its boundary: a
failure of any layer (base64 decode, percent decode, JSON parse) yields
`none`, and in particular the token "not-a-valid-token" yields `none`. -/
theorem c9_decompress_malformed_total :
    decompressTripData (chars "not-a-valid-token") = none
  ∧ (∀ s, atob s = none → decompressTripData s = none)
  ∧ (∀ s d, atob s = some d → decodeURIComponent d = none → decompressTripData s = none)
  ∧ (∀ s d u, atob s = some d → decodeURIComponent d = some u → parseJson u = none →
      decompressTripData s = none) := by
  refine ⟨rfl, ?_, ?_, ?_⟩
  · intro s h
    simp [decompressTripData, h]
  · intro s d h1 h2
    simp [decompressTripData, h1, h2]
  · intro s d u h1 h2 h3
    simp [decompressTripData, h1, h2, h3]

/-- C9 witness: the failure propagation applied at concrete malformed tokens
(one failing base64, one whose decoded text is not JSON). -/
theorem c9_decompress_witness :
    decompressTripData (chars "!!") = none ∧ decompressTripData (chars "JTdC") = none := by
  constructor
  · exact c9_decompress_malformed_total.2.1 (chars "!!") (by decide)
  · exact c9_decompress_malformed_total.2.2.2 (chars "JTdC") (chars "%7B") (chars "\x7b")
      (by decide) (by decide) rfl

/-! ## C2: the duplicate-place invariant -/

theorem isPlaceInTrip_count (place : SearchPlace) (td : UiTripData) :
    isPlaceInTrip place td = true ↔ 0 < countMatchingPlaces place td.places := by
  rw [isPlaceInTrip, countMatchingPlaces, List.any_eq_true, List.countP_pos_iff]

/-- C2 counterexample: the claim "a place already matching an existing entry
by the `(displayName.text, formattedAddress)` pair is never added a second
time" fails in a sequential run: opening the popup twice on an absent place
registers two document-level listeners for the same derived button id (the
guard sees the place absent both times, nothing having changed in between),
and one click on the button then fires both — each appends once and removes
only itself — leaving two matching entries. -/
theorem c2_duplicate_place_counterexample :
    isPlaceInTrip ⟨⟨chars "P"⟩, chars "A", none, none⟩ ⟨none, none, []⟩ = false
  ∧ markerClick ⟨⟨chars "P"⟩, chars "A", none, none⟩ ⟨none, none, []⟩
      (markerClick ⟨⟨chars "P"⟩, chars "A", none, none⟩ ⟨none, none, []⟩ 0) = 2
  ∧ countMatchingPlaces ⟨⟨chars "P"⟩, chars "A", none, none⟩
      (fireButtonClick ⟨⟨chars "P"⟩, chars "A", none, none⟩
        [chars "t1", chars "t2"] ⟨none, none, []⟩).places = 2 :=
  ⟨by decide, by decide, by decide⟩

/-- C2 (amended): `handleButtonClick` appends unconditionally — every firing
listener adds exactly one matching entry, so one button click that fires the
`n` registered listeners adds `n`.  The duplicate guard runs only at
popup-open time: a popup opened on a place already in the trip registers no
listener, and a single popup-open-then-click interaction on an absent place
yields exactly one matching entry.  Listeners accumulate across popup opens
(each removes only itself and `stopPropagation` does not stop its siblings),
so two opens before one click append the place twice: the claimed invariant
fails (the final conjunct; see the counterexample for the concrete trace). -/
theorem c2_duplicate_place_guard (place : SearchPlace) (td : UiTripData) :
    (∀ t, countMatchingPlaces place (handleButtonClick place t td).places
        = countMatchingPlaces place td.places + 1)
  ∧ (∀ stamps, countMatchingPlaces place (fireButtonClick place stamps td).places
        = countMatchingPlaces place td.places + stamps.length)
  ∧ (∀ n, isPlaceInTrip place td = true → markerClick place td n = n)
  ∧ (∀ n, isPlaceInTrip place td = false → markerClick place td n = n + 1)
  ∧ (∀ t, isPlaceInTrip place td = false →
      countMatchingPlaces place (fireButtonClick place [t] td).places = 1)
  ∧ (∃ p2 td2 s2, isPlaceInTrip p2 td2 = false
      ∧ 2 ≤ countMatchingPlaces p2 (fireButtonClick p2 s2 td2).places) := by
  have hstep : ∀ (t : Str) (u : UiTripData),
      countMatchingPlaces place (handleButtonClick place t u).places
        = countMatchingPlaces place u.places + 1 := by
    intro t u
    show countMatchingPlaces place (u.places ++ [mkTripPlace place t]) = _
    rw [countMatchingPlaces, countMatchingPlaces, List.countP_append]
    simp [mkTripPlace, List.countP_cons]
  have hfire : ∀ (stamps : List Str) (u : UiTripData),
      countMatchingPlaces place (fireButtonClick place stamps u).places
        = countMatchingPlaces place u.places + stamps.length := by
    intro stamps
    induction stamps with
    | nil => intro u; simp [fireButtonClick]
    | cons t rest ih =>
        intro u
        simp only [fireButtonClick]
        rw [ih (handleButtonClick place t u), hstep t u]
        simp only [List.length_cons]
        omega
  refine ⟨fun t => hstep t td, fun stamps => hfire stamps td, ?_, ?_, ?_, ?_⟩
  · intro n h
    rw [markerClick, if_pos h]
  · intro n h
    simp [markerClick, h]
  · intro t h
    have h0 : countMatchingPlaces place td.places = 0 := by
      by_contra hne
      exact absurd ((isPlaceInTrip_count place td).mpr (by omega)) (by simp [h])
    rw [hfire [t] td, h0]
    rfl
  · exact ⟨⟨⟨chars "P"⟩, chars "A", none, none⟩, ⟨none, none, []⟩,
      [chars "t1", chars "t2"], by decide, by decide⟩

/-- C2 witness: the amended law applied at a concrete absent place — a single
popup-open-then-click interaction adds exactly one matching entry. -/
theorem c2_duplicate_place_witness :
    countMatchingPlaces ⟨⟨chars "P"⟩, chars "A", none, none⟩
      (fireButtonClick ⟨⟨chars "P"⟩, chars "A", none, none⟩ [chars "t0"]
        ⟨none, none, []⟩).places = 1 :=
  (c2_duplicate_place_guard ⟨⟨chars "P"⟩, chars "A", none, none⟩
      ⟨none, none, []⟩).2.2.2.2.1 (chars "t0") (by decide)

/-! ## C5: registry delete is idempotent and always succeeds -/

theorem getSavedTrips_set (l : List Json) (σ : Storage) :
    getSavedTrips { σ with loc := setPairs (chars "savedTrips") (jPrint (.jarr l)) σ.loc }
      = .jarr l := by
  rw [getSavedTrips]
  simp only [locGet, lookupPairs_setPairs_self]
  rw [show (jPrint (Json.jarr l)).isEmpty = false from rfl]
  simp only [Bool.false_eq_true, if_false, parseJson_jPrint]

/-- C5: `deleteSavedTrip` returns true whether or not a snapshot with the id
exists (on a well-formed registry with a writable cell), deleting twice gives
the same result and state as deleting once, and the resulting registry holds
no snapshot with that id. -/
theorem c5_delete_idempotent (σ : Storage) (l : List Json) (tid : Str)
    (hreg : getSavedTrips σ = .jarr l) (hb : chars "savedTrips" ∉ σ.broken) :
    (deleteSavedTrip tid σ).1 = true
  ∧ deleteSavedTrip tid (deleteSavedTrip tid σ).2 = deleteSavedTrip tid σ
  ∧ getSavedTrips (deleteSavedTrip tid σ).2
      = .jarr (l.filter fun t => !jsEqStr (jsonGet t (chars "id")) tid)
  ∧ ∀ j ∈ l.filter (fun t => !jsEqStr (jsonGet t (chars "id")) tid),
      jsEqStr (jsonGet j (chars "id")) tid = false := by
  have hdel : deleteSavedTrip tid σ
      = (true, { σ with loc := (setPairs (chars "savedTrips")
          (jPrint (.jarr (l.filter fun t => !jsEqStr (jsonGet t (chars "id")) tid)))
          σ.loc) }) := by
    rw [deleteSavedTrip, hreg]
    simp [locSet, hb]
  have hreg2 : getSavedTrips (deleteSavedTrip tid σ).2
      = .jarr (l.filter fun t => !jsEqStr (jsonGet t (chars "id")) tid) := by
    rw [hdel]
    exact getSavedTrips_set _ σ
  refine ⟨by rw [hdel], ?_, hreg2, ?_⟩
  · have hff : (l.filter fun t => !jsEqStr (jsonGet t (chars "id")) tid).filter
        (fun t => !jsEqStr (jsonGet t (chars "id")) tid)
        = l.filter fun t => !jsEqStr (jsonGet t (chars "id")) tid := by
      rw [List.filter_filter]
      simp [Bool.and_self]
    have hdel2 : deleteSavedTrip tid (deleteSavedTrip tid σ).2
        = (true, { σ with loc := (setPairs (chars "savedTrips")
            (jPrint (.jarr (l.filter fun t => !jsEqStr (jsonGet t (chars "id")) tid)))
            σ.loc) }) := by
      rw [deleteSavedTrip, hreg2]
      rw [hdel]
      simp only [locSet, hb]
      rw [hff]
      simp [setPairs_setPairs_self]
    rw [hdel2, hdel]
  · intro j hj
    rw [List.mem_filter] at hj
    simpa using hj.2

/-- C5 witness: deleting from an empty registry succeeds. -/
theorem c5_delete_witness :
    (deleteSavedTrip (chars "x") ⟨[], [], []⟩).1 = true :=
  (c5_delete_idempotent ⟨[], [], []⟩ [] (chars "x") rfl (by decide)).1

/-! ## C7: updateActiveTrip fails atomically without an active trip -/

/-- C7: with no current trip id (or a falsy one) `updateTripData` returns
`false` and leaves the whole storage state unchanged; with an active id it
overwrites only that identity's record key (or fails without mutating when
that single write throws). -/
theorem c7_updateTripData_atomic (r : Json) (σ : Storage) :
    (sessGet (chars "currentTripId") σ = none → updateTripData r σ = (false, σ))
  ∧ (sessGet (chars "currentTripId") σ = some [] → updateTripData r σ = (false, σ))
  ∧ (∀ cid, sessGet (chars "currentTripId") σ = some cid → cid.isEmpty = false →
      (getTripStorageKey cid (chars "data") ∈ σ.broken → updateTripData r σ = (false, σ))
      ∧ (getTripStorageKey cid (chars "data") ∉ σ.broken →
          (updateTripData r σ).1 = true
          ∧ sessGet (getTripStorageKey cid (chars "data")) (updateTripData r σ).2
              = some (jPrint (jsonSetField r (chars "tripId") (.jstr cid)))
          ∧ (∀ k, k ≠ getTripStorageKey cid (chars "data") →
              sessGet k (updateTripData r σ).2 = sessGet k σ)
          ∧ (updateTripData r σ).2.loc = σ.loc
          ∧ (updateTripData r σ).2.broken = σ.broken)) := by
  refine ⟨?_, ?_, ?_⟩
  · intro h
    simp [updateTripData, h]
  · intro h
    simp [updateTripData, h]
  · intro cid hcid hne
    constructor
    · intro hbrk
      simp [updateTripData, hcid, hne, sessSet, hbrk]
    · intro hbrk
      have hupd : updateTripData r σ
          = (true, { σ with sess := (setPairs (getTripStorageKey cid (chars "data"))
              (jPrint (jsonSetField r (chars "tripId") (.jstr cid))) σ.sess) }) := by
        simp [updateTripData, hcid, hne, sessSet, hbrk]
      rw [hupd]
      refine ⟨rfl, ?_, ?_, rfl, rfl⟩
      · simp [sessGet, lookupPairs_setPairs_self]
      · intro k hk
        simp [sessGet, lookupPairs_setPairs_ne _ _ _ hk]

/-- C7 witness: the no-active-trip case and the successful overwrite applied
at a concrete state. -/
theorem c7_updateTripData_witness :
    updateTripData Json.jnull ⟨[], [], []⟩ = (false, ⟨[], [], []⟩)
    ∧ (updateTripData Json.jnull
        ⟨[(chars "currentTripId", chars "trip_1")], [], []⟩).1 = true := by
  constructor
  · exact (c7_updateTripData_atomic Json.jnull ⟨[], [], []⟩).1 rfl
  · exact (((c7_updateTripData_atomic Json.jnull
      ⟨[(chars "currentTripId", chars "trip_1")], [], []⟩).2.2 (chars "trip_1")
      rfl rfl).2 (by decide)).1

/-! ## C6: store/read round trip for the active trip -/

/-- The record of the C6 counterexample: its `tripId` is not the computed
identity of its place references. -/
def c6Record : TripDataR :=
  ⟨chars "a", chars "b", chars "p", chars "q", none, some (chars "custom")⟩

/-- A storage state with nothing stored and no failing keys. -/
def emptyStorage : Storage := ⟨[], [], []⟩

/-- C6 (amended): after a successful `storeTripData R`,
`getCurrentTripData` returns the record equal to R in every field except
that its `tripId` now holds the identity computed from R's place references
(hence equal to R exactly when R already carried that identity); the
injectivity conjunct makes the image determine the record field-for-field. -/
theorem c6_store_get_roundtrip (R : TripDataR) (σ : Storage)
    (hd : getTripStorageKey (generateTripId R.fromPlaceId R.toPlaceId) (chars "data")
        ∉ σ.broken)
    (hc : chars "currentTripId" ∉ σ.broken) :
    (storeTripData (some (tripDataToJson R)) σ).1 = true
  ∧ getCurrentTripData (storeTripData (some (tripDataToJson R)) σ).2
      = some (tripDataToJson
          { R with tripId := some (generateTripId R.fromPlaceId R.toPlaceId) })
  ∧ ∀ R2 : TripDataR, tripDataToJson R2 = tripDataToJson R → R2 = R := by
  have hd2 : getTripStorageKey (storedTripId (tripDataToJson R)) (chars "data")
      ∉ σ.broken := by
    rwa [storedTripId_tripData]
  refine ⟨?_, ?_, fun R2 h => tripDataToJson_inj h⟩
  · rw [storeTripData_spec _ _ hd2 hc]
  · rw [getCurrentTripData_after_store _ _ hd2 hc, storedTripId_tripData,
      jsonSetField_tripData]

/-- C6 counterexample: the claim "`getActiveTrip()` returns a record equal
to R" fails when R's `tripId` is not the computed identity: `storeTripData`
overwrites the `tripId` field, so the read-back record differs from R. -/
theorem c6_store_get_counterexample :
    (storeTripData (some (tripDataToJson c6Record)) emptyStorage).1 = true
  ∧ getCurrentTripData (storeTripData (some (tripDataToJson c6Record)) emptyStorage).2
      ≠ some (tripDataToJson c6Record) := by
  have hd : getTripStorageKey (storedTripId (tripDataToJson c6Record)) (chars "data")
      ∉ emptyStorage.broken := by
    intro h
    exact absurd h (List.not_mem_nil _)
  have hc : chars "currentTripId" ∉ emptyStorage.broken := by
    intro h
    exact absurd h (List.not_mem_nil _)
  constructor
  · rw [storeTripData_spec _ _ hd hc]
  · rw [getCurrentTripData_after_store _ _ hd hc]
    intro h
    have h2 := congrArg jPrint (Option.some.inj h)
    exact absurd h2 (by decide)

/-- C6 witness: the amended round trip applied at a concrete record and an
empty storage. -/
theorem c6_store_get_witness :
    (storeTripData (some (tripDataToJson c6Record)) emptyStorage).1 = true :=
  (c6_store_get_roundtrip c6Record emptyStorage (by decide) (by decide)).1

/-! ## C1: share-codec round trip -/

/-- C1: for every gathered snapshot (trip record with optional route summary
and places cache), decoding the token produced by the serialization of
`compressTripData` yields exactly the runtime image of the snapshot — the
places sequence in its original order — and that image determines the
snapshot field-for-field (the injectivity conjunct). -/
theorem c1_share_roundtrip :
    (∀ st : ShareableTripR,
       (compressGathered (tripDataToJson st.tripData)
           (st.routeData.map routeDataToJson) (st.placesData.map Json.jarr)).bind
           decompressTripData
         = some (shareableTripToJson st))
  ∧ ∀ a b : ShareableTripR, shareableTripToJson a = shareableTripToJson b → a = b := by
  refine ⟨?_, fun a b h => shareableTripToJson_inj h⟩
  intro st
  have hascii := encodeURIComponent_bytes (jPrint (shareableTripToJson st))
  have hb := atob_btoa (encodeURIComponent (jPrint (shareableTripToJson st))) hascii
  have hobj : Json.jobj ([(chars "tripData", tripDataToJson st.tripData)]
      ++ (match st.routeData.map routeDataToJson with
          | some r => [(chars "routeData", r)]
          | none => [])
      ++ (match st.placesData.map Json.jarr with
          | some p => [(chars "placesData", p)]
          | none => []))
      = shareableTripToJson st := by
    rw [shareableTripToJson]
    cases st.routeData <;> cases st.placesData <;> rfl
  simp only [compressGathered, hobj, hb.1, Option.some_bind]
  simp only [decompressTripData, hb.2, decodeURIComponent_encode, parseJson_jPrint]

/-- C1 witness: the round trip applied at a concrete snapshot with a
nonempty places sequence and a route summary. -/
theorem c1_share_witness :
    (compressGathered
        (tripDataToJson ⟨chars "a", chars "b", chars "p", chars "q",
          some [⟨⟨chars "P"⟩, chars "A", none, none, chars "t0"⟩], none⟩)
        ((some ⟨615000, chars "22000", ⟨chars "abc"⟩, none, chars "ts"⟩ :
            Option RouteDataR).map routeDataToJson)
        ((none : Option (List Json)).map Json.jarr)).bind decompressTripData
      = some (shareableTripToJson
          ⟨⟨chars "a", chars "b", chars "p", chars "q",
            some [⟨⟨chars "P"⟩, chars "A", none, none, chars "t0"⟩], none⟩,
           some ⟨615000, chars "22000", ⟨chars "abc"⟩, none, chars "ts"⟩, none⟩) :=
  c1_share_roundtrip.1
    ⟨⟨chars "a", chars "b", chars "p", chars "q",
      some [⟨⟨chars "P"⟩, chars "A", none, none, chars "t0"⟩], none⟩,
     some ⟨615000, chars "22000", ⟨chars "abc"⟩, none, chars "ts"⟩, none⟩

/-! ## C4: the purge frame condition

Lemmas about the cleanup filter, the legacy-key removal and the shape of
trip-scoped keys. -/

theorem isPrefixOf_append_self : ∀ a b : Str, a.isPrefixOf (a ++ b) = true
  | [], _ => by simp [List.isPrefixOf]
  | c :: a, b => by simp [List.isPrefixOf, isPrefixOf_append_self a b]

theorem strContains_nil : ∀ s : Str, strContains s [] = true
  | [] => rfl
  | c :: t => by simp [strContains, strContains_nil t]

theorem strContains_middle (sub : Str) :
    ∀ pre post : Str, strContains (pre ++ (sub ++ post)) sub = true
  | [], post => by
      cases sub with
      | nil => simpa using strContains_nil post
      | cons c cs =>
          have h := isPrefixOf_append_self (c :: cs) post
          simp only [List.cons_append] at h
          simp [strContains, h]
  | c :: pre, post => by
      have ih := strContains_middle sub pre post
      simp [strContains, ih]

theorem sessGet_sessRemove (k k2 : Str) (σ : Storage) :
    sessGet k (sessRemove k2 σ) = if k = k2 then none else sessGet k σ := by
  have h0 : sessGet k (sessRemove k2 σ)
      = if decide (k ≠ k2) = true then sessGet k σ else none :=
    lookupPairs_keyFilter (fun x => decide (x ≠ k2)) k σ.sess
  rw [h0]
  by_cases h : k = k2 <;> simp [h]

theorem removeLegacy_other (k k2 : Str) (σ : Storage) (h : k ≠ k2) :
    sessGet k (removeLegacy k2 σ) = sessGet k σ := by
  rw [removeLegacy]
  cases hv : sessGet k2 σ with
  | none => rfl
  | some v =>
      by_cases he : v.isEmpty = true
      · simp [he]
      · simp [he, sessGet_sessRemove, h]

theorem removeLegacy_none (k k2 : Str) (σ : Storage) (h : sessGet k σ = none) :
    sessGet k (removeLegacy k2 σ) = none := by
  rw [removeLegacy]
  cases hv : sessGet k2 σ with
  | none => exact h
  | some v =>
      by_cases he : v.isEmpty = true
      · simpa [he] using h
      · simp [he, sessGet_sessRemove, h]

theorem tripKey_starts (a b : Str) :
    (chars "trip_").isPrefixOf (getTripStorageKey a b) = true :=
  isPrefixOf_append_self (chars "trip_") (a ++ '_' :: b)

theorem tripKey_contains_id (a b : Str) :
    strContains (getTripStorageKey a b) a = true :=
  strContains_middle a (chars "trip_") ('_' :: b)

theorem tripKey_at4 (a b : Str) :
    (getTripStorageKey a b).tail.tail.tail.tail.head? = some '_' := rfl

/-- A trip-scoped key differs from each of the three legacy unscoped keys
(their fifth characters differ). -/
theorem tripKey_ne_legacy (a b : Str) :
    getTripStorageKey a b ≠ chars "tripData"
  ∧ getTripStorageKey a b ≠ chars "routeData"
  ∧ getTripStorageKey a b ≠ chars "placesData" := by
  refine ⟨fun h => ?_, fun h => ?_, fun h => ?_⟩ <;>
    · have h4 := tripKey_at4 a b
      rw [h] at h4
      exact absurd h4 (by decide)

/-- C4 counterexample: the claim "purgeInactive removes every `trip_X_*` key
once the active identity switched from X to Y" fails: the filter tests
substring containment of Y, so with current id "trip_1" the stored key of the
old identity "trip_12" contains "trip_1" as a substring and survives the
purge even though "trip_12" ≠ "trip_1". -/
theorem c4_cleanup_counterexample :
    chars "trip_12" ≠ chars "trip_1"
  ∧ sessGet (chars "currentTripId")
        ⟨[(chars "currentTripId", chars "trip_1"),
          (getTripStorageKey (chars "trip_12") (chars "data"), chars "x")], [], []⟩
      = some (chars "trip_1")
  ∧ sessGet (getTripStorageKey (chars "trip_12") (chars "data"))
        (cleanupOldTripData
          ⟨[(chars "currentTripId", chars "trip_1"),
            (getTripStorageKey (chars "trip_12") (chars "data"), chars "x")], [], []⟩)
      = some (chars "x") :=
  ⟨by decide, by decide, by decide⟩

/-- C4 (amended): with a truthy current id Y, `cleanupOldTripData` removes
exactly the `trip_`-prefixed session keys that do not contain Y as a
substring: every trip-scoped key without Y as a substring is gone, every key
scoped to Y itself keeps its value, and the `currentTripId` pointer is
preserved.  (The source tests `key.includes(currentTripId)` rather than
matching the scoped key prefix exactly, so a stale identity whose key
happens to contain Y survives — see the counterexample.) -/
theorem c4_cleanup_frame (σ : Storage) (Y : Str)
    (hcur : sessGet (chars "currentTripId") σ = some Y)
    (hY : Y.isEmpty = false) :
    (∀ tid dt, strContains (getTripStorageKey tid dt) Y = false →
        sessGet (getTripStorageKey tid dt) (cleanupOldTripData σ) = none)
  ∧ (∀ dt, sessGet (getTripStorageKey Y dt) (cleanupOldTripData σ)
        = sessGet (getTripStorageKey Y dt) σ)
  ∧ sessGet (chars "currentTripId") (cleanupOldTripData σ) = some Y := by
  have hclean : cleanupOldTripData σ
      = removeLegacy (chars "placesData") (removeLegacy (chars "routeData")
          (removeLegacy (chars "tripData")
            { σ with sess := (σ.sess.filter fun kv =>
                !((chars "trip_").isPrefixOf kv.1 && !strContains kv.1 Y)) })) := by
    rw [cleanupOldTripData, hcur]
    simp [hY]
  have hfil : ∀ k : Str, sessGet k
        { σ with sess := (σ.sess.filter fun kv =>
            !((chars "trip_").isPrefixOf kv.1 && !strContains kv.1 Y)) }
      = if !((chars "trip_").isPrefixOf k && !strContains k Y)
        then sessGet k σ else none :=
    fun k => lookupPairs_keyFilter
      (fun x => !((chars "trip_").isPrefixOf x && !strContains x Y)) k σ.sess
  refine ⟨?_, ?_, ?_⟩
  · intro tid dt hnc
    rw [hclean]
    refine removeLegacy_none _ _ _ (removeLegacy_none _ _ _ (removeLegacy_none _ _ _ ?_))
    rw [hfil]
    simp [tripKey_starts, hnc]
  · intro dt
    rw [hclean]
    have h1 := tripKey_ne_legacy Y dt
    rw [removeLegacy_other _ _ _ h1.2.2, removeLegacy_other _ _ _ h1.2.1,
        removeLegacy_other _ _ _ h1.1, hfil]
    simp [tripKey_contains_id]
  · rw [hclean, removeLegacy_other _ _ _ (by decide), removeLegacy_other _ _ _ (by decide),
        removeLegacy_other _ _ _ (by decide), hfil,
        show (chars "trip_").isPrefixOf (chars "currentTripId") = false from by decide]
    simpa using hcur

/-- C4 witness: the amended purge law applied at a concrete state: the stale
key of identity "trip_99" (whose key does not contain "trip_1") is removed
while the pointer survives. -/
theorem c4_cleanup_witness :
    sessGet (getTripStorageKey (chars "trip_99") (chars "data"))
        (cleanupOldTripData
          ⟨[(chars "currentTripId", chars "trip_1"),
            (getTripStorageKey (chars "trip_99") (chars "data"), chars "x")], [], []⟩)
      = none
  ∧ sessGet (chars "currentTripId")
        (cleanupOldTripData
          ⟨[(chars "currentTripId", chars "trip_1"),
            (getTripStorageKey (chars "trip_99") (chars "data"), chars "x")], [], []⟩)
      = some (chars "trip_1") :=
  ⟨(c4_cleanup_frame _ (chars "trip_1") (by decide) (by decide)).1
      (chars "trip_99") (chars "data") (by decide),
   (c4_cleanup_frame _ (chars "trip_1") (by decide) (by decide)).2.2⟩

/-! ## C8: registry update semantics -/

theorem findIdx?_none_all {α : Type} (p : α → Bool) :
    ∀ (l : List α) (i : Nat), List.findIdx? p l i = none → ∀ x ∈ l, p x = false
  | [], _, _, x, hx => absurd hx (List.not_mem_nil x)
  | a :: l, i, h, x, hx => by
      rw [List.findIdx?_cons] at h
      by_cases hpa : p a = true
      · rw [if_pos hpa] at h
        exact absurd h (by simp)
      · rw [if_neg hpa] at h
        rcases List.mem_cons.mp hx with rfl | hx2
        · simpa using hpa
        · exact findIdx?_none_all p l (i + 1) h x hx2

theorem findIdx?_some_exists {α : Type} (p : α → Bool) :
    ∀ (l : List α) (i j : Nat), List.findIdx? p l i = some j → ∃ x ∈ l, p x = true
  | [], _, _, h => absurd h (by simp [List.findIdx?])
  | a :: l, i, j, h => by
      rw [List.findIdx?_cons] at h
      by_cases hpa : p a = true
      · exact ⟨a, List.mem_cons_self a l, hpa⟩
      · rw [if_neg hpa] at h
        obtain ⟨x, hx, hpx⟩ := findIdx?_some_exists p l (i + 1) j h
        exact ⟨x, List.mem_cons_of_mem a hx, hpx⟩

/-- The replacement snapshot keeps the requested id, takes the new name,
carries over exactly the `savedAt` it was handed, and embeds the current
trip record. -/
theorem mkUpdatedSavedTrip_fields (tid tn : Str) (descr : Option Str)
    (sv : Option Json) (td : Json) (rd pd : Option Json) :
    jsonGet (mkUpdatedSavedTrip tid tn descr sv td rd pd) (chars "id")
        = some (.jstr tid)
  ∧ jsonGet (mkUpdatedSavedTrip tid tn descr sv td rd pd) (chars "name")
        = some (.jstr tn)
  ∧ jsonGet (mkUpdatedSavedTrip tid tn descr sv td rd pd) (chars "savedAt") = sv
  ∧ jsonGet (mkUpdatedSavedTrip tid tn descr sv td rd pd) (chars "tripData")
        = some td := by
  have h1 : ¬(chars "id" = chars "name") := by decide
  have h2 : ¬(chars "id" = chars "savedAt") := by decide
  have h3 : ¬(chars "name" = chars "savedAt") := by decide
  have h4 : ¬(chars "description" = chars "savedAt") := by decide
  have h5 : ¬(chars "tripData" = chars "savedAt") := by decide
  have h6 : ¬(chars "routeData" = chars "savedAt") := by decide
  have h7 : ¬(chars "placesData" = chars "savedAt") := by decide
  have h8 : ¬(chars "id" = chars "tripData") := by decide
  have h9 : ¬(chars "name" = chars "tripData") := by decide
  have h10 : ¬(chars "description" = chars "tripData") := by decide
  have h11 : ¬(chars "savedAt" = chars "tripData") := by decide
  rcases descr with _ | d <;> rcases sv with _ | s <;> rcases rd with _ | r <;>
    rcases pd with _ | q <;>
    simp [mkUpdatedSavedTrip, jsonGet, jsonGet.fieldLookup,
      h1, h2, h3, h4, h5, h6, h7, h8, h9, h10, h11]

/-- C8 counterexample: the claim "update fails exactly when no snapshot with
that id exists" is wrong: with a registry holding a snapshot of id "s1" but
no active trip, the update of "s1" still fails (and mutates nothing), because
`updateSavedTrip` first requires current trip data. -/
theorem c8_registry_update_counterexample :
    (getSavedTrip (chars "s1")
        ⟨[], [(chars "savedTrips",
            jPrint (.jarr [.jobj [(chars "id", .jstr (chars "s1"))]]))], []⟩).isSome = true
  ∧ updateSavedTrip (chars "s1") (chars "N") none
        ⟨[], [(chars "savedTrips",
            jPrint (.jarr [.jobj [(chars "id", .jstr (chars "s1"))]]))], []⟩
      = (false,
         ⟨[], [(chars "savedTrips",
             jPrint (.jarr [.jobj [(chars "id", .jstr (chars "s1"))]]))], []⟩) :=
  ⟨by decide, by decide⟩

/-- C8 (amended): given an active (truthy) trip record, a parsable registry
array and a writable cell, `updateSavedTrip` succeeds exactly when a snapshot
with the requested id exists; on a miss it returns false and mutates nothing;
on a hit it replaces exactly the found index with the rebuilt snapshot —
which keeps the id and the original's `savedAt`, takes the new name and the
current trip record — leaving every other index and the array's length
unchanged.  Without an active trip the update fails even when the snapshot
exists (the correction to the original claim). -/
theorem c8_registry_update (tid tn : Str) (descr : Option Str) (σ : Storage)
    (l : List Json) (td : Json)
    (htd : getCurrentTripData σ = some td) (htruthy : jsFalsy td = false)
    (hreg : getSavedTrips σ = .jarr l) (hb : chars "savedTrips" ∉ σ.broken) :
    ((updateSavedTrip tid tn descr σ).1 = true
       ↔ ∃ t ∈ l, jsEqStr (jsonGet t (chars "id")) tid = true)
  ∧ (List.findIdx? (fun t => jsEqStr (jsonGet t (chars "id")) tid) l 0 = none →
       updateSavedTrip tid tn descr σ = (false, σ))
  ∧ (∀ i, List.findIdx? (fun t => jsEqStr (jsonGet t (chars "id")) tid) l 0 = some i →
       updateSavedTrip tid tn descr σ
         = (true, { σ with loc := (setPairs (chars "savedTrips")
             (jPrint (.jarr (l.set i (mkUpdatedSavedTrip tid tn descr
               (jsonGet (l.getD i .jnull) (chars "savedAt")) td
               (orUndefined (getCurrentRouteData σ))
               (orUndefined (getCurrentPlacesData σ)))))) σ.loc) })
       ∧ (l.set i (mkUpdatedSavedTrip tid tn descr
             (jsonGet (l.getD i .jnull) (chars "savedAt")) td
             (orUndefined (getCurrentRouteData σ))
             (orUndefined (getCurrentPlacesData σ)))).length = l.length
       ∧ ∀ j, j ≠ i →
           (l.set i (mkUpdatedSavedTrip tid tn descr
               (jsonGet (l.getD i .jnull) (chars "savedAt")) td
               (orUndefined (getCurrentRouteData σ))
               (orUndefined (getCurrentPlacesData σ)))).getD j .jnull
             = l.getD j .jnull)
  ∧ (∀ sv rd pd,
       jsonGet (mkUpdatedSavedTrip tid tn descr sv td rd pd) (chars "id")
           = some (.jstr tid)
     ∧ jsonGet (mkUpdatedSavedTrip tid tn descr sv td rd pd) (chars "name")
           = some (.jstr tn)
     ∧ jsonGet (mkUpdatedSavedTrip tid tn descr sv td rd pd) (chars "savedAt") = sv
     ∧ jsonGet (mkUpdatedSavedTrip tid tn descr sv td rd pd) (chars "tripData")
           = some td)
  ∧ (∀ σ2, getCurrentTripData σ2 = none →
       updateSavedTrip tid tn descr σ2 = (false, σ2)) := by
  refine ⟨?_, ?_, ?_, fun sv rd pd => mkUpdatedSavedTrip_fields tid tn descr sv td rd pd, ?_⟩
  · cases hf : List.findIdx? (fun t => jsEqStr (jsonGet t (chars "id")) tid) l 0 with
    | none =>
        have hres : updateSavedTrip tid tn descr σ = (false, σ) := by
          simp only [updateSavedTrip, htd, htruthy, Bool.false_eq_true, if_false, hreg, hf]
        rw [hres]
        constructor
        · intro h
          exact absurd h (by simp)
        · rintro ⟨x, hx, hpx⟩
          have hall := findIdx?_none_all _ l 0 hf x hx
          rw [hpx] at hall
          exact absurd hall (by simp)
    | some i =>
        have hres : (updateSavedTrip tid tn descr σ).1 = true := by
          simp only [updateSavedTrip, htd, htruthy, Bool.false_eq_true, if_false, hreg, hf]
          simp [locSet, hb]
        rw [hres]
        exact ⟨fun _ => findIdx?_some_exists _ l 0 i hf, fun _ => rfl⟩
  · intro hf
    simp only [updateSavedTrip, htd, htruthy, Bool.false_eq_true, if_false, hreg, hf]
  · intro i hf
    refine ⟨?_, by simp, ?_⟩
    · simp only [updateSavedTrip, htd, htruthy, Bool.false_eq_true, if_false, hreg, hf]
      simp [locSet, hb]
    · intro j hj
      rw [List.getD_eq_getElem?_getD, List.getD_eq_getElem?_getD,
          List.getElem?_set_ne (Ne.symm hj), List.getD_eq_getElem?_getD]
  · intro σ2 h2
    simp only [updateSavedTrip, h2]

/-- C8 witness: the amended update law applied at a concrete state with an
active trip and a registry holding the target snapshot. -/
theorem c8_registry_update_witness :
    (updateSavedTrip (chars "s1") (chars "N") none
        ⟨[(chars "currentTripId", chars "t1"),
          (getTripStorageKey (chars "t1") (chars "data"), jPrint (.jobj []))],
         [(chars "savedTrips",
            jPrint (.jarr [.jobj [(chars "id", .jstr (chars "s1"))]]))], []⟩).1 = true :=
  ((c8_registry_update (chars "s1") (chars "N") none
      ⟨[(chars "currentTripId", chars "t1"),
        (getTripStorageKey (chars "t1") (chars "data"), jPrint (.jobj []))],
       [(chars "savedTrips",
          jPrint (.jarr [.jobj [(chars "id", .jstr (chars "s1"))]]))], []⟩
      [.jobj [(chars "id", .jstr (chars "s1"))]] (.jobj [])
      rfl rfl rfl (by decide)).1).mpr
    ⟨.jobj [(chars "id", .jstr (chars "s1"))], List.mem_cons_self _ _, by decide⟩

/-! ## C10: load discards the partition write results -/

theorem tripKey_getLast (a x : Str) :
    (getTripStorageKey a x).getLast? = ('_' :: x).getLast? := by
  rw [getTripStorageKey]
  rw [List.getLast?_append_of_ne_nil (chars "trip_" ++ a) (by simp)]

/-- Two scoped keys with last characters of their data types differing are
distinct whatever the two trip ids are. -/
theorem tripKey_ne_of_getLast {a b x y : Str}
    (h : ('_' :: x).getLast? ≠ ('_' :: y).getLast?) :
    getTripStorageKey a x ≠ getTripStorageKey b y := by
  intro he
  exact h (by rw [← tripKey_getLast a x, ← tripKey_getLast b y, he])

theorem storeRouteData_frame (rd : Json) (σ : Storage) (k : Str)
    (h : ∀ c : Str, k ≠ getTripStorageKey c (chars "route")) :
    sessGet k (storeRouteData rd σ).2 = sessGet k σ := by
  rw [storeRouteData]
  cases hc : sessGet (chars "currentTripId") σ with
  | none => rfl
  | some cid =>
      cases he : cid.isEmpty with
      | true => simp [he]
      | false =>
          simp only [he, Bool.false_eq_true, if_false]
          rw [sessSet]
          by_cases hb : getTripStorageKey cid (chars "route") ∈ σ.broken
          · rw [if_pos hb]
          · rw [if_neg hb]
            exact lookupPairs_setPairs_ne _ _ _ (h cid) σ.sess

theorem storeRouteData_brokenEq (rd : Json) (σ : Storage) :
    (storeRouteData rd σ).2.broken = σ.broken := by
  rw [storeRouteData]
  cases hc : sessGet (chars "currentTripId") σ with
  | none => rfl
  | some cid =>
      cases he : cid.isEmpty with
      | true => simp [he]
      | false =>
          simp only [he, Bool.false_eq_true, if_false]
          rw [sessSet]
          by_cases hb : getTripStorageKey cid (chars "route") ∈ σ.broken
          · rw [if_pos hb]
          · rw [if_neg hb]

theorem storeRouteData_broken (rd : Json) (σ : Storage) (cid : Str)
    (hc : sessGet (chars "currentTripId") σ = some cid) (hne : cid.isEmpty = false)
    (hb : getTripStorageKey cid (chars "route") ∈ σ.broken) :
    storeRouteData rd σ = (false, σ) := by
  rw [storeRouteData, hc]
  simp [hne, sessSet, hb]

theorem storePlacesData_frame (pd : Json) (σ : Storage) (k : Str)
    (h : ∀ c : Str, k ≠ getTripStorageKey c (chars "places")) :
    sessGet k (storePlacesData pd σ).2 = sessGet k σ := by
  rw [storePlacesData]
  cases hc : sessGet (chars "currentTripId") σ with
  | none => rfl
  | some cid =>
      cases he : cid.isEmpty with
      | true => simp [he]
      | false =>
          simp only [he, Bool.false_eq_true, if_false]
          rw [sessSet]
          by_cases hb : getTripStorageKey cid (chars "places") ∈ σ.broken
          · rw [if_pos hb]
          · rw [if_neg hb]
            exact lookupPairs_setPairs_ne _ _ _ (h cid) σ.sess

theorem storePlacesData_broken (pd : Json) (σ : Storage) (cid : Str)
    (hc : sessGet (chars "currentTripId") σ = some cid) (hne : cid.isEmpty = false)
    (hb : getTripStorageKey cid (chars "places") ∈ σ.broken) :
    storePlacesData pd σ = (false, σ) := by
  rw [storePlacesData, hc]
  simp [hne, sessSet, hb]

theorem loadRouteStage_frame (st : Json) (σ : Storage) (k : Str)
    (h : ∀ c : Str, k ≠ getTripStorageKey c (chars "route")) :
    sessGet k (loadRouteStage st σ) = sessGet k σ := by
  rw [loadRouteStage]
  cases jsonGet st (chars "routeData") with
  | none => rfl
  | some rd =>
      cases hjf : jsFalsy rd with
      | true => simp [hjf]
      | false =>
          simp only [hjf, Bool.false_eq_true, if_false]
          exact storeRouteData_frame rd σ k h

theorem loadRouteStage_brokenEq (st : Json) (σ : Storage) :
    (loadRouteStage st σ).broken = σ.broken := by
  rw [loadRouteStage]
  cases jsonGet st (chars "routeData") with
  | none => rfl
  | some rd =>
      cases hjf : jsFalsy rd with
      | true => simp [hjf]
      | false =>
          simp only [hjf, Bool.false_eq_true, if_false]
          exact storeRouteData_brokenEq rd σ

theorem loadRouteStage_broken (st : Json) (σ : Storage) (cid : Str)
    (hc : sessGet (chars "currentTripId") σ = some cid) (hne : cid.isEmpty = false)
    (hb : getTripStorageKey cid (chars "route") ∈ σ.broken) :
    loadRouteStage st σ = σ := by
  rw [loadRouteStage]
  cases jsonGet st (chars "routeData") with
  | none => rfl
  | some rd =>
      cases hjf : jsFalsy rd with
      | true => simp [hjf]
      | false =>
          simp only [hjf, Bool.false_eq_true, if_false]
          rw [storeRouteData_broken rd σ cid hc hne hb]

theorem loadPlacesStage_frame (st : Json) (σ : Storage) (k : Str)
    (h : ∀ c : Str, k ≠ getTripStorageKey c (chars "places")) :
    sessGet k (loadPlacesStage st σ) = sessGet k σ := by
  rw [loadPlacesStage]
  cases jsonGet st (chars "placesData") with
  | none => rfl
  | some pd =>
      cases hjf : jsFalsy pd with
      | true => simp [hjf]
      | false =>
          simp only [hjf, Bool.false_eq_true, if_false]
          exact storePlacesData_frame pd σ k h

theorem loadPlacesStage_broken (st : Json) (σ : Storage) (cid : Str)
    (hc : sessGet (chars "currentTripId") σ = some cid) (hne : cid.isEmpty = false)
    (hb : getTripStorageKey cid (chars "places") ∈ σ.broken) :
    loadPlacesStage st σ = σ := by
  rw [loadPlacesStage]
  cases jsonGet st (chars "placesData") with
  | none => rfl
  | some pd =>
      cases hjf : jsFalsy pd with
      | true => simp [hjf]
      | false =>
          simp only [hjf, Bool.false_eq_true, if_false]
          rw [storePlacesData_broken pd σ cid hc hne hb]

/-- C10: `loadSavedTrip` returns true whenever the snapshot exists and the
write of its trip record succeeds; the boolean results of the subsequent
route and places writes are discarded, so a true result guarantees that the
trip record is installed as the active trip (readable back with the computed
identity stamped into `tripId`) but not that the route or places partitions
were written: when their keys throw, those partitions keep their previous
contents. -/
theorem c10_load_discards_partition_failures (tid : Str) (σ : Storage) (st td : Json)
    (hst : getSavedTrip tid σ = some st)
    (htd : jsonGet st (chars "tripData") = some td)
    (hd : getTripStorageKey (storedTripId td) (chars "data") ∉ σ.broken)
    (hc : chars "currentTripId" ∉ σ.broken) :
    (loadSavedTrip tid σ).1 = true
  ∧ getCurrentTripData (loadSavedTrip tid σ).2
      = some (jsonSetField td (chars "tripId") (.jstr (storedTripId td)))
  ∧ (getTripStorageKey (storedTripId td) (chars "route") ∈ σ.broken →
      sessGet (getTripStorageKey (storedTripId td) (chars "route"))
          (loadSavedTrip tid σ).2
        = sessGet (getTripStorageKey (storedTripId td) (chars "route")) σ)
  ∧ (getTripStorageKey (storedTripId td) (chars "places") ∈ σ.broken →
      sessGet (getTripStorageKey (storedTripId td) (chars "places"))
          (loadSavedTrip tid σ).2
        = sessGet (getTripStorageKey (storedTripId td) (chars "places")) σ) := by
  have hstore := storeTripData_spec td σ hd hc
  set E : Storage := { σ with sess := (setPairs (chars "currentTripId") (storedTripId td)
      (setPairs (getTripStorageKey (storedTripId td) (chars "data"))
        (jPrint (jsonSetField td (chars "tripId") (.jstr (storedTripId td))))
        σ.sess)) } with hE
  have hrun : loadSavedTrip tid σ = (true, loadPlacesStage st (loadRouteStage st E)) := by
    simp only [loadSavedTrip, hst, htd, hstore]
  have hcurr1 : sessGet (chars "currentTripId") E = some (storedTripId td) := by
    rw [hE]
    simp [sessGet, lookupPairs_setPairs_self]
  have hdata1 : sessGet (getTripStorageKey (storedTripId td) (chars "data")) E
      = some (jPrint (jsonSetField td (chars "tripId") (.jstr (storedTripId td)))) := by
    rw [hE]
    simp only [sessGet]
    rw [lookupPairs_setPairs_ne _ _ _ (tripKey_ne_currentTripId _ _),
        lookupPairs_setPairs_self]
  have hroute1 : sessGet (getTripStorageKey (storedTripId td) (chars "route")) E
      = sessGet (getTripStorageKey (storedTripId td) (chars "route")) σ := by
    rw [hE]
    simp only [sessGet]
    rw [lookupPairs_setPairs_ne _ _ _ (tripKey_ne_currentTripId _ _),
        lookupPairs_setPairs_ne _ _ _ (tripKey_ne_of_dataType (by decide))]
  have hplaces1 : sessGet (getTripStorageKey (storedTripId td) (chars "places")) E
      = sessGet (getTripStorageKey (storedTripId td) (chars "places")) σ := by
    rw [hE]
    simp only [sessGet]
    rw [lookupPairs_setPairs_ne _ _ _ (tripKey_ne_currentTripId _ _),
        lookupPairs_setPairs_ne _ _ _ (tripKey_ne_of_dataType (by decide))]
  have hbrkE : E.broken = σ.broken := by rw [hE]
  have hrun2 : (loadSavedTrip tid σ).2 = loadPlacesStage st (loadRouteStage st E) := by
    rw [hrun]
  refine ⟨by rw [hrun], ?_, ?_, ?_⟩
  · rw [hrun2]
    have hcur3 : sessGet (chars "currentTripId")
        (loadPlacesStage st (loadRouteStage st E)) = some (storedTripId td) := by
      rw [loadPlacesStage_frame st _ _
            (fun c => Ne.symm (tripKey_ne_currentTripId c (chars "places"))),
          loadRouteStage_frame st _ _
            (fun c => Ne.symm (tripKey_ne_currentTripId c (chars "route"))),
          hcurr1]
    have hdata3 : sessGet (getTripStorageKey (storedTripId td) (chars "data"))
        (loadPlacesStage st (loadRouteStage st E))
        = some (jPrint (jsonSetField td (chars "tripId") (.jstr (storedTripId td)))) := by
      rw [loadPlacesStage_frame st _ _ (fun c => tripKey_ne_of_getLast (by decide)),
          loadRouteStage_frame st _ _ (fun c => tripKey_ne_of_getLast (by decide)),
          hdata1]
    simp only [getCurrentTripData, hcur3]
    rw [show (storedTripId td).isEmpty = false from rfl]
    simp only [Bool.false_eq_true, if_false, hdata3, parseJson_jPrint]
  · intro hbr
    rw [hrun2]
    rw [loadPlacesStage_frame st _ _ (fun c => tripKey_ne_of_getLast (by decide))]
    rw [loadRouteStage_broken st E (storedTripId td) hcurr1 rfl (by rw [hbrkE]; exact hbr)]
    exact hroute1
  · intro hbp
    rw [hrun2]
    have hcur2 : sessGet (chars "currentTripId") (loadRouteStage st E)
        = some (storedTripId td) := by
      rw [loadRouteStage_frame st _ _
            (fun c => Ne.symm (tripKey_ne_currentTripId c (chars "route"))), hcurr1]
    have hb2 : getTripStorageKey (storedTripId td) (chars "places")
        ∈ (loadRouteStage st E).broken := by
      rw [loadRouteStage_brokenEq, hbrkE]
      exact hbp
    rw [loadPlacesStage_broken st (loadRouteStage st E) (storedTripId td) hcur2 rfl hb2]
    rw [loadRouteStage_frame st _ _ (fun c => tripKey_ne_of_getLast (by decide))]
    exact hplaces1

set_option maxRecDepth 10000 in
/-- C10 witness: loading a concrete snapshot succeeds and installs its trip
record although the route partition's key throws. -/
theorem c10_load_witness :
    (loadSavedTrip (chars "s1")
        ⟨[], [(chars "savedTrips", jPrint (.jarr
            [.jobj [(chars "id", .jstr (chars "s1")), (chars "tripData", .jobj [])]]))],
         [getTripStorageKey (storedTripId (.jobj [])) (chars "route")]⟩).1 = true :=
  (c10_load_discards_partition_failures (chars "s1")
      ⟨[], [(chars "savedTrips", jPrint (.jarr
          [.jobj [(chars "id", .jstr (chars "s1")), (chars "tripData", .jobj [])]]))],
       [getTripStorageKey (storedTripId (.jobj [])) (chars "route")]⟩
      (.jobj [(chars "id", .jstr (chars "s1")), (chars "tripData", .jobj [])])
      (.jobj []) rfl rfl (by decide) (by decide)).1
